import Mathlib

/-!
Verification of the narration-resolution pipeline of the budgetbuddy-ai
repository (mybudget-ai).  The Python sources are shallowly embedded as
executable Lean definitions:

* `preprocessing_utils.py` : `is_likely_p2p`, `preprocess_upi_narration`
  (every `re.sub` pass becomes an explicit left-to-right scanner with the
  same greedy/backtracking semantics as the original pattern);
* `distilbert_inference.py` : `clean_text`, `load_keyword_mappings`,
  `match_keywords`, `DistilBertPredictor.predict` (the torch model itself is
  external and is abstracted as an oracle `predictWithModel`, whose failures
  are modelled with `Except`, mirroring Python exceptions);
* `inference_local.py` : `extract_category_parts`, `load_corrections`,
  `get_corrected_category`, `predict`, `predict_batch`;
* `add_correction.py` : `add_correction`.

Strings are processed as `List Char`; Python `str.strip`, `str.lower`,
the regex whitespace, word and digit classes are reproduced for the ASCII inputs the
pipeline handles.
-/

/-! ## Character utilities (Python `str` / `re` semantics, ASCII) -/

/-- Python whitespace characters recognised by Python strip and the regex whitespace class. -/
def isPySpace (c : Char) : Bool :=
  c == ' ' || c == '\t' || c == '\n' || c == '\r' || c == '\u000B' || c == '\u000C'

def isDigitChar (c : Char) : Bool := '0' ≤ c && c ≤ '9'

def isUpperAZ (c : Char) : Bool := 'A' ≤ c && c ≤ 'Z'

def isLowerAZ (c : Char) : Bool := 'a' ≤ c && c ≤ 'z'

def isAsciiAlpha (c : Char) : Bool := isUpperAZ c || isLowerAZ c

def isAlnumChar (c : Char) : Bool := isAsciiAlpha c || isDigitChar c

/-- Regex word character (ASCII letters, digits, underscore). -/
def isWordChar (c : Char) : Bool := isAlnumChar c || c == '_'

/-- Python `str.lower` on an ASCII character. -/
def lowerChar (c : Char) : Char :=
  if isUpperAZ c then Char.ofNat (c.toNat + 32) else c

def lowerL (s : List Char) : List Char := s.map lowerChar

/-- Length of the maximal prefix of `s` whose characters satisfy `p`
(the greedy match of a character class). -/
def runLen (p : Char → Bool) (s : List Char) : Nat := (s.takeWhile p).length

/-- Drop characters satisfying `p` from the end of the list. -/
def pyDropEnd (p : Char → Bool) (s : List Char) : List Char :=
  (s.reverse.dropWhile p).reverse

/-- Python `str.strip()` (no arguments: strips whitespace). -/
def pyStripL (s : List Char) : List Char :=
  pyDropEnd isPySpace (s.dropWhile isPySpace)

def isStripSetChar (c : Char) : Bool := c == ' ' || c == '-' || c == '/'

/-- Python strip with the character set "space, dash, slash", used as the
final step of the normalizer. -/
def stripSetL (s : List Char) : List Char :=
  pyDropEnd isStripSetChar (s.dropWhile isStripSetChar)

def lit (s : String) : List Char := s.data

/-- Does `s` start with the literal `pre` (exact characters)? -/
def startsWithL : List Char → List Char → Bool
  | [], _ => true
  | _ :: _, [] => false
  | p :: pr, c :: cr => p == c && startsWithL pr cr

/-- Does `s` start with the literal `pre`, case-insensitively? -/
def ciStarts : List Char → List Char → Bool
  | [], _ => true
  | _ :: _, [] => false
  | p :: pr, c :: cr => lowerChar c == lowerChar p && ciStarts pr cr

/-- Python `needle in hay` (exact substring). -/
def containsSub (needle : List Char) : List Char → Bool
  | [] => startsWithL needle []
  | c :: rest => startsWithL needle (c :: rest) || containsSub needle rest

/-- Case-insensitive substring occurrence. -/
def containsCi (needle : List Char) : List Char → Bool
  | [] => ciStarts needle []
  | c :: rest => ciStarts needle (c :: rest) || containsCi needle rest

/-! ## Generic regex-substitution scanner

`re.sub` scans the subject left to right; at each position it either finds a
(non-overlapping) match, emits the replacement and resumes after the match,
or copies one character.  A matcher receives the character immediately
preceding the current position (for word-boundary assertions) and the remaining
suffix, and returns the number of consumed characters on a match. -/

def scanRepl (m : Option Char → List Char → Option Nat) (repl : List Char) :
    Nat → Option Char → List Char → List Char
  | 0, _, s => s
  | _ + 1, _, [] => []
  | fuel + 1, prev, c :: rest =>
    match m prev (c :: rest) with
    | some n =>
      if n = 0 then c :: scanRepl m repl fuel (some c) rest
      else repl ++ scanRepl m repl fuel (((c :: rest).take n).getLast?) (List.drop n (c :: rest))
    | none => c :: scanRepl m repl fuel (some c) rest

/-- Run one `re.sub` pass over the whole string. -/
def runSub (m : Option Char → List Char → Option Nat) (repl : List Char)
    (s : List Char) : List Char :=
  scanRepl m repl s.length none s

/-- Generic `re.search`: does the Boolean matcher fire at some position? -/
def scanFind (m : Option Char → List Char → Bool) : Option Char → List Char → Bool
  | prev, [] => m prev []
  | prev, c :: rest => m prev (c :: rest) || scanFind m (some c) rest

def isWordO : Option Char → Bool
  | none => false
  | some c => isWordChar c

/-- Word boundary immediately before a word character: the previous
character (if any) is not a word character. -/
def wordStartB (prev : Option Char) : Bool := !(isWordO prev)

/-- Word boundary immediately after a word character: the next
character (if any) is not a word character. -/
def endB : List Char → Bool
  | [] => true
  | c :: _ => !(isWordChar c)

/-! ## `is_likely_p2p` (preprocessing_utils.py) -/

def isSepDash (c : Char) : Bool := c == '-' || c == '/'

def sepSpDash (c : Char) : Bool := c == '-' || c == '/' || c == ' '

/-- Matcher for the pattern "one or more dashes or slashes" (used both by
the P2P normalisation and by Step 8). -/
def mSepsRun (_ : Option Char) (s : List Char) : Option Nat :=
  let r := runLen isSepDash s
  if r ≥ 1 then some r else none

/-- The dash-and-slash-to-space normalisation inside `is_likely_p2p`. -/
def normSeps (s : List Char) : List Char := runSub mSepsRun (lit " ") s

/-- P2P indicator phrases, exactly as listed in the source (including the
duplicated "received from"). -/
def p2pIndicators : List (List Char) :=
  (["friend", "friends", "with friend", "with friends",
    "dinner", "lunch", "outing", "hangout", "social",
    "group expense", "shared", "reimbursed", "reimburse",
    "lent", "borrowed", "loan to", "given to", "received from",
    "gift", "birthday", "wedding", "anniversary", "party",
    "split", "shared expense", "contribution",
    "to ", "from ", "sent to", "paid to", "received from"] :
    List String).map String.data

/-- Pattern fragment "letter, then two or more letters, then a word
boundary" (the person-name token under IGNORECASE). -/
def nameTokenB (s : List Char) : Bool :=
  match s with
  | c :: rest =>
    isAsciiAlpha c && decide (2 ≤ runLen isAsciiAlpha rest) &&
      endB (List.drop (runLen isAsciiAlpha rest) rest)
  | [] => false

/-- Person-name token with no trailing boundary; returns the consumed
length (one plus the maximal letter run). -/
def nameTokenLen (s : List Char) : Option Nat :=
  match s with
  | c :: rest =>
    if isAsciiAlpha c && decide (2 ≤ runLen isAsciiAlpha rest) then
      some (1 + runLen isAsciiAlpha rest)
    else none
  | [] => none

/-- Patterns "boundary, keyword to, separators, name token" and the
from, with, paid variants. -/
def pWordName (w : List Char) (prev : Option Char) (s : List Char) : Bool :=
  wordStartB prev && ciStarts w s &&
    (let r := runLen sepSpDash (List.drop w.length s)
     decide (1 ≤ r) && nameTokenB (List.drop (w.length + r) s))

/-- Pattern "name token, separators, the word and or an ampersand,
separators, name token". -/
def pNameAndName (prev : Option Char) (s : List Char) : Bool :=
  wordStartB prev &&
    (match nameTokenLen s with
     | some n1 =>
       let s1 := List.drop n1 s
       let r1 := runLen sepSpDash s1
       decide (1 ≤ r1) &&
         (let s2 := List.drop r1 s1
          (ciStarts (lit "and") s2 &&
            (let r2 := runLen sepSpDash (List.drop 3 s2)
             decide (1 ≤ r2) && nameTokenB (List.drop (3 + r2) s2))) ||
          (match s2 with
           | '&' :: s3 =>
             let r2 := runLen sepSpDash s3
             decide (1 ≤ r2) && nameTokenB (List.drop r2 s3)
           | _ => false))
     | none => false)

/-- Pattern "name token, separators, the word paid, boundary". -/
def pNamePaid (prev : Option Char) (s : List Char) : Bool :=
  wordStartB prev &&
    (match nameTokenLen s with
     | some n1 =>
       let s1 := List.drop n1 s
       let r := runLen sepSpDash s1
       decide (1 ≤ r) && ciStarts (lit "paid") (List.drop r s1) &&
         endB (List.drop (r + 4) s1)
     | none => false)

/-- Pattern "two or more letters, a dash, then a name token", anchored at
the start of the string. -/
def pUpperDashName (s : List Char) : Bool :=
  let l := runLen isAsciiAlpha s
  decide (2 ≤ l) &&
    (match List.drop l s with
     | '-' :: rest =>
       (match rest with
        | c :: r2 => isAsciiAlpha c && decide (2 ≤ runLen isAsciiAlpha r2)
        | [] => false)
     | _ => false)

/-- `is_likely_p2p` from preprocessing_utils.py: indicator substrings on the
lower-cased text, person-name regexes on the raw and the
separator-normalised text. -/
def is_likely_p2pL (s : List Char) : Bool :=
  if s = [] then false
  else
    let lower := lowerL s
    let normd := normSeps s
    let kw :=
      p2pIndicators.any (fun ind => containsSub ind lower) ||
        p2pIndicators.any (fun ind => containsSub ind (lowerL normd))
    let nameOn := fun (t : List Char) =>
      scanFind (pWordName (lit "to")) none t ||
      scanFind (pWordName (lit "from")) none t ||
      scanFind (pWordName (lit "with")) none t ||
      scanFind pNameAndName none t ||
      scanFind pNamePaid none t ||
      scanFind (pWordName (lit "paid")) none t ||
      pUpperDashName t
    kw || (nameOn s || nameOn normd)

def is_likely_p2p (narration : String) : Bool := is_likely_p2pL narration.data

/-! ## `preprocess_upi_narration` (preprocessing_utils.py)

Each regex pass of the source becomes one matcher below, in source order. -/

/-- Matcher for the UPI prefix: the letters U, P, I at the start followed
by a dash or a slash (IGNORECASE). -/
def hasUpiPrefix : List Char → Bool
  | u :: p :: i :: d :: _ =>
    lowerChar u == 'u' && lowerChar p == 'p' && lowerChar i == 'i' && (d == '-' || d == '/')
  | _ => false

/-- Greedy extension of the repeated "dash plus alnum run" groups of the
bank-tag pattern. -/
def bankRunExt : Nat → List Char → Nat → Nat
  | 0, _, acc => acc
  | fuel + 1, s, acc =>
    match s with
    | '-' :: rest =>
      let r := runLen isAlnumChar rest
      if r ≥ 1 then bankRunExt fuel (List.drop r rest) (acc + 1 + r) else acc
    | _ => acc

/-- The bank-tag prefix match after the at-sign: an alnum run followed by
repeated dash-plus-alnum-run groups (IGNORECASE); returns the length of the
bank tag, if the text starts with one. -/
def bankTagLen (s : List Char) : Option Nat :=
  let r0 := runLen isAlnumChar s
  if r0 = 0 then none else some (bankRunExt s.length (List.drop r0 s) r0)

/-- Case-sensitive search for an uppercase letter followed by two or more
lowercase letters. -/
def hasCapName : List Char → Bool
  | [] => false
  | c :: rest =>
    (isUpperAZ c && decide (2 ≤ runLen isLowerAZ rest)) || hasCapName rest

/-- Step 2 of the normalizer: bank-tag removal at the first `@`. -/
def atStep (isP2p : Bool) (t : List Char) : List Char :=
  if t.contains '@' then
    let before := t.takeWhile (fun c => c != '@')
    let after := List.drop (before.length + 1) t
    if isP2p && is_likely_p2pL after then
      match bankTagLen after with
      | some tag =>
        let remaining := pyStripL (List.drop tag after)
        if remaining = [] then before else before ++ ' ' :: remaining
      | none =>
        if hasCapName after then before ++ ' ' :: after else before
    else
      match bankTagLen after with
      | some tag => before ++ List.drop tag after
      | none => before
  else t

/-- Step 3a: a dash or slash followed by nine or more digits. -/
def mDashDigits (_ : Option Char) (s : List Char) : Option Nat :=
  match s with
  | c :: rest =>
    if isSepDash c then
      let d := runLen isDigitChar rest
      if d ≥ 9 then some (1 + d) else none
    else none
  | [] => none

/-- Step 3b: whitespace followed by nine or more digits. -/
def mSpaceDigits (_ : Option Char) (s : List Char) : Option Nat :=
  let w := runLen isPySpace s
  if w ≥ 1 then
    let d := runLen isDigitChar (List.drop w s)
    if d ≥ 9 then some (w + d) else none
  else none

/-- Step 4: letters, a dot, then twelve or more digits (IGNORECASE). -/
def mAlphaDotDigits (_ : Option Char) (s : List Char) : Option Nat :=
  let l := runLen isAsciiAlpha s
  if l ≥ 1 then
    match List.drop l s with
    | '.' :: rest =>
      let d := runLen isDigitChar rest
      if d ≥ 12 then some (l + 1 + d) else none
    | _ => none
  else none

/-- Step 5a: the literal PAYTM, a dot, then an alnum run (IGNORECASE). -/
def mPaytmDot (_ : Option Char) (s : List Char) : Option Nat :=
  if ciStarts (lit "paytm.") s then
    let a := runLen isAlnumChar (List.drop 6 s)
    if a ≥ 1 then some (6 + a) else none
  else none

/-- Step 5b: a dash or slash, the literal PAYTMQR, then an alnum run
(IGNORECASE). -/
def mDashPaytmQr (_ : Option Char) (s : List Char) : Option Nat :=
  match s with
  | c :: rest =>
    if isSepDash c && ciStarts (lit "paytmqr") rest then
      let a := runLen isAlnumChar (List.drop 7 rest)
      if a ≥ 1 then some (1 + 7 + a) else none
    else none
  | [] => none

/-- Step 5c: the literal PAYTMQR plus an alnum run, with word boundaries
on both sides (IGNORECASE). -/
def mPaytmQrWord (prev : Option Char) (s : List Char) : Option Nat :=
  if wordStartB prev && ciStarts (lit "paytmqr") s then
    let a := runLen isAlnumChar (List.drop 7 s)
    if a ≥ 1 ∧ endB (List.drop (7 + a) s) then some (7 + a) else none
  else none

/-- Step 6a: a dash or slash, eight or more uppercase letters, then six
or more digits (case-sensitive). -/
def mDashUpperDigits (_ : Option Char) (s : List Char) : Option Nat :=
  match s with
  | c :: rest =>
    if isSepDash c then
      let l := runLen isUpperAZ rest
      if l ≥ 8 then
        let d := runLen isDigitChar (List.drop l rest)
        if d ≥ 6 then some (1 + l + d) else none
      else none
    else none
  | [] => none

def isUpperAlnum (c : Char) : Bool := isUpperAZ c || isDigitChar c

/-- Step 6b: a dash or slash, optional uppercase letters, a digit, then
fourteen or more uppercase alnum characters (case-sensitive). -/
def mDashLongCode (_ : Option Char) (s : List Char) : Option Nat :=
  match s with
  | c :: rest =>
    if isSepDash c then
      let l := runLen isUpperAZ rest
      match List.drop l rest with
      | d :: r2 =>
        if isDigitChar d then
          let m := runLen isUpperAlnum r2
          if m ≥ 14 then some (1 + l + 1 + m) else none
        else none
      | [] => none
    else none
  | [] => none

/-- Step 6c: a dash or slash, six or more digits, then four or more
uppercase alnum characters.  With backtracking, the pattern fires exactly
when the digit run has length at least 6 and can cede enough characters to
the trailing alnum part; the consumed span is always the separator plus the
full digit run plus the full trailing alnum run. -/
def mDashZeroCode (_ : Option Char) (s : List Char) : Option Nat :=
  match s with
  | c :: rest =>
    if isSepDash c then
      let d := runLen isDigitChar rest
      let l := runLen isUpperAlnum (List.drop d rest)
      if d ≥ 6 ∧ d + l ≥ 10 then some (1 + d + l) else none
    else none
  | [] => none

/-- Patterns of the form "boundary, word, whitespace, word, boundary"
(IGNORECASE): ACH D, CHQ PAID, CHEQUE PAID, TRANSFER IN, TRANSFER OUT. -/
def mWordSpWord (w1 w2 : List Char) (prev : Option Char) (s : List Char) : Option Nat :=
  if wordStartB prev && ciStarts w1 s then
    let ws := runLen isPySpace (List.drop w1.length s)
    if ws ≥ 1 ∧
        ciStarts w2 (List.drop (w1.length + ws) s) = true ∧
        endB (List.drop (w1.length + ws + w2.length) s) = true then
      some (w1.length + ws + w2.length)
    else none
  else none

/-- Handling of the optional dot and final boundary after LTD: the dot is
only consumed when the character after it is a word character (else the
boundary fails and the regex backtracks to the dotless alternative, which
needs a non-word successor). -/
def ltdTail : List Char → Option Nat
  | [] => some 0
  | '.' :: rest =>
    match rest with
    | [] => some 0
    | c :: _ => if isWordChar c then some 1 else some 0
  | c :: _ => if isWordChar c then none else some 0

/-- Step 7.5e: optional BANK plus whitespace, then LTD with an optional
dot, delimited by word boundaries (IGNORECASE). -/
def mLtd (prev : Option Char) (s : List Char) : Option Nat :=
  if wordStartB prev then
    let withBank : Option Nat :=
      if ciStarts (lit "bank") s then
        let ws := runLen isPySpace (List.drop 4 s)
        if ws ≥ 1 ∧ ciStarts (lit "ltd") (List.drop (4 + ws) s) = true then
          (ltdTail (List.drop (4 + ws + 3) s)).map (fun e => 4 + ws + 3 + e)
        else none
      else none
    match withBank with
    | some n => some n
    | none =>
      if ciStarts (lit "ltd") s then (ltdTail (List.drop 3 s)).map (fun e => 3 + e)
      else none
  else none

/-- Literal word or phrase with word boundaries on both sides
(IGNORECASE); used for the spelling fixes and the noise-word removal. -/
def mWordB (w : List Char) (prev : Option Char) (s : List Char) : Option Nat :=
  if wordStartB prev && ciStarts w s && endB (List.drop w.length s) then
    some w.length
  else none

/-- Step 7.6: the literal groc after a word boundary, with a lookahead
requiring whitespace, a dash or slash, or end of string (IGNORECASE). -/
def mGroc (prev : Option Char) (s : List Char) : Option Nat :=
  if wordStartB prev && ciStarts (lit "groc") s then
    match List.drop 4 s with
    | [] => some 4
    | c :: _ => if isPySpace c || isSepDash c then some 4 else none
  else none

/-- Step 10: one or more whitespace characters, collapsed to a space. -/
def mWs (_ : Option Char) (s : List Char) : Option Nat :=
  let r := runLen isPySpace s
  if r ≥ 1 then some r else none

/-- Default noise words of preprocessing_utils.py (`DEFAULT_NOISE_WORDS`;
the categories.yml override is external configuration and absent from the
repository, so the fallback list is in force). -/
def defaultNoiseWords : List (List Char) :=
  (["YOU ARE PAYING FOR", "PAYMENT FOR", "TRANSACTION", "GENERATING DYNAMIC",
    "REF NO", "TXN", "TXNID"] : List String).map String.data

/-- The reduced noise list used for P2P narrations. -/
def criticalNoiseWords : List (List Char) :=
  (["TXN", "TXNID", "REF NO", "GENERATING DYNAMIC"] : List String).map String.data

def removeNoise (ws : List (List Char)) (s : List Char) : List Char :=
  ws.foldl (fun t w => runSub (mWordB w) [] t) s

/-- `preprocess_upi_narration` from preprocessing_utils.py, steps in source
order. -/
def preprocessL (preserve : Bool) (input : List Char) : List Char :=
  let t0 := pyStripL input
  if t0 = [] then []
  else
    let p2p0 := preserve && is_likely_p2pL t0
    let afterUpi := if hasUpiPrefix t0 then List.drop 4 t0 else t0
    let isP2p :=
      if hasUpiPrefix t0 then p2p0 || (preserve && is_likely_p2pL afterUpi) else p2p0
    let t1 := atStep isP2p afterUpi
    let t2 := runSub mDashDigits [] t1
    let t3 := runSub mSpaceDigits [] t2
    let t4 := runSub mAlphaDotDigits [] t3
    let t5 := runSub mPaytmDot [] t4
    let t6 := runSub mDashPaytmQr [] t5
    let t7 := runSub mPaytmQrWord [] t6
    let t8 := runSub mDashUpperDigits [] t7
    let t9 := runSub mDashLongCode [] t8
    let t10 := runSub mDashZeroCode [] t9
    let t11 := runSub (mWordSpWord (lit "ACH") (lit "D")) (lit "ACH DEBIT") t10
    let t12 := runSub (mWordSpWord (lit "CHQ") (lit "PAID")) (lit "CHEQUE PAYMENT") t11
    let t13 := runSub (mWordSpWord (lit "CHEQUE") (lit "PAID")) (lit "CHEQUE PAYMENT") t12
    let t14 := runSub (mWordSpWord (lit "TRANSFER") (lit "IN")) (lit "BANK TRANSFER") t13
    let t15 := runSub (mWordSpWord (lit "TRANSFER") (lit "OUT")) (lit "BANK TRANSFER") t14
    let t16 := runSub mLtd [] t15
    let t17 := runSub (mWordB (lit "grocies")) (lit "grocery") t16
    let t18 := runSub mGroc (lit "grocery") t17
    let t19 := runSub (mWordB (lit "grocerie")) (lit "grocery") t18
    let t20 := runSub (mWordB (lit "grocerys")) (lit "grocery") t19
    let t21 := runSub (mWordB (lit "foods")) (lit "food") t20
    let t22 := runSub mSepsRun (lit " ") t21
    let t23 :=
      if isP2p then removeNoise criticalNoiseWords t22
      else removeNoise defaultNoiseWords t22
    let t24 := runSub mWs (lit " ") t23
    stripSetL t24

def preprocess_upi_narration (text : String) (preserveP2pClues : Bool) : String :=
  ⟨preprocessL preserveP2pClues text.data⟩

/-! ## distilbert_inference.py -/

def strLower (s : String) : String := ⟨lowerL s.data⟩

def pyStrip (s : String) : String := ⟨pyStripL s.data⟩

/-- `clean_text` from distilbert_inference.py (preprocessing_utils is
importable in this repository, so the preprocessing branch is taken). -/
def clean_text (text : String) : String :=
  if text = "" then "" else preprocess_upi_narration text true

/-- One subcategory node of the parsed categories.yml document. -/
structure SubcatConfig where
  name : String
  keywords : List String
deriving DecidableEq

/-- One top-level category node of the parsed categories.yml document;
`subcategories = none` models a category dict without that key. -/
structure CatConfig where
  name : String
  subcategories : Option (List SubcatConfig)
  keywords : List String
deriving DecidableEq

/-- The keyword entries contributed by one subcategory inside
`load_keyword_mappings`: keywords are Python-truthiness filtered
(`if keyword and isinstance(keyword, str)`), then stored as
`keyword.lower().strip()` with the composite category path. -/
def subcatEntries (cname : String) (subcat : SubcatConfig) : List (String × String) :=
  subcat.keywords.filterMap (fun k =>
    if k ≠ "" then some (pyStrip (strLower k), cname ++ " / " ++ subcat.name) else none)

/-- The keyword entries contributed by one top-level category inside
`load_keyword_mappings`. -/
def catEntries (cat : CatConfig) : List (String × String) :=
  match cat.subcategories with
  | some subs => subs.foldl (fun acc2 subcat => acc2 ++ subcatEntries cat.name subcat) []
  | none =>
    cat.keywords.filterMap (fun k =>
      if k ≠ "" then some (pyStrip (strLower k), cat.name) else none)

/-- `load_keyword_mappings` from distilbert_inference.py. -/
def load_keyword_mappings (cats : List CatConfig) : List (String × String) :=
  cats.foldl (fun acc cat => acc ++ catEntries cat) []

/-- Stable insertion for Python `sorted(key=len, reverse=True)`: an element
is placed before the first element whose keyword is not longer, so earlier
elements of equal length stay first. -/
def insertByLenDesc (x : String × String) : List (String × String) → List (String × String)
  | [] => [x]
  | y :: ys => if y.1.length ≤ x.1.length then x :: y :: ys else y :: insertByLenDesc x ys

def sortByLenDesc (l : List (String × String)) : List (String × String) :=
  l.foldr insertByLenDesc []

/-- Consume the literal `kw` from `s` case-insensitively, also returning the
last consumed subject character (needed for the trailing boundary). -/
def consumeCi : List Char → List Char → Option Char → Option (Option Char × List Char)
  | [], s, last => some (last, s)
  | k :: kr, c :: cr, _ => if lowerChar c == lowerChar k then consumeCi kr cr (some c) else none
  | _ :: _, [], _ => none

/-- Word boundary between two adjacent characters (string edges count as
non-word). -/
def bnd (a b : Option Char) : Bool := isWordO a != isWordO b

/-- Does the escaped-literal keyword with word boundaries on both sides
match at the current position? -/
def bMatchAt (prev : Option Char) (kw s : List Char) : Bool :=
  match consumeCi kw s prev with
  | some (last, rest) => bnd prev s.head? && bnd last rest.head?
  | none => false

def kwFound (kw : List Char) (text : List Char) : Bool :=
  scanFind (fun prev s => bMatchAt prev kw s) none text

/-- `match_keywords` from distilbert_inference.py: longest keyword first
(stable), word-boundary and case-insensitive match on the lower-cased
narration. -/
def match_keywords (narration : String) (mappings : List (String × String)) : Option String :=
  if narration = "" ∨ mappings = [] then none
  else
    let nl := lowerL narration.data
    ((sortByLenDesc mappings).find? (fun kc => kwFound kc.1.data nl)).map (fun kc => kc.2)

/-- Result dictionary of `DistilBertPredictor._predict_with_model`.
Confidences are carried as rationals (the code only moves them around). -/
structure ModelResult where
  transaction_type : String
  category : String
  intent : String
  confidence : List (String × Rat)
  probabilities : List (String × List (String × Rat))
deriving DecidableEq

/-- The literal fallback dictionary used in the keyword branch of
`DistilBertPredictor.predict` when the cleaned narration is empty (it has
no category key; `model_category` reads it with default "Uncategorized"). -/
def defaultModelResult : ModelResult :=
  { transaction_type := "N/A", category := "Uncategorized", intent := "N/A",
    confidence := [], probabilities := [] }

/-- Result dictionary of `DistilBertPredictor.predict`.  `keyword_matched`
is `none` when the key is absent (the two early-return dictionaries);
the key `user_correction` is never set by this method. -/
structure PredictorResult where
  transaction_type : String
  category : String
  intent : String
  confidence : List (String × Rat)
  probabilities : List (String × List (String × Rat))
  keyword_matched : Option Bool
  model_category : Option String
deriving DecidableEq

/-- The empty-narration dictionary of `DistilBertPredictor.predict`. -/
def naPredictorResult : PredictorResult :=
  { transaction_type := "N/A", category := "Uncategorized", intent := "N/A",
    confidence := [], probabilities := [], keyword_matched := none,
    model_category := none }

/-- The loaded DistilBERT predictor: its keyword mappings plus the external
torch model, abstracted as an oracle whose exceptions are `Except.error`. -/
structure Predictor where
  keyword_mappings : List (String × String)
  predictWithModel : String → Except String ModelResult

/-- `DistilBertPredictor.predict` from distilbert_inference.py.  Model
exceptions propagate (there is no try-except in this method). -/
def dbPredict (p : Predictor) (narration : String) : Except String PredictorResult :=
  if pyStrip narration = "" then .ok naPredictorResult
  else
    let km0 := match_keywords narration p.keyword_mappings
    let km :=
      match km0 with
      | some c => some c
      | none =>
        let cn := clean_text narration
        if cn ≠ "" ∧ strLower cn ≠ strLower narration then
          match_keywords cn p.keyword_mappings
        else none
    match km with
    | some kcat =>
      let cn := clean_text narration
      match (if cn ≠ "" then p.predictWithModel cn else .ok defaultModelResult) with
      | .error e => .error e
      | .ok m =>
        .ok { transaction_type := m.transaction_type, category := kcat,
              intent := m.intent, confidence := m.confidence,
              probabilities := m.probabilities, keyword_matched := some true,
              model_category := some m.category }
    | none =>
      let cn := clean_text narration
      if cn = "" then .ok naPredictorResult
      else
        match p.predictWithModel cn with
        | .error e => .error e
        | .ok m =>
          .ok { transaction_type := m.transaction_type, category := m.category,
                intent := m.intent, confidence := m.confidence,
                probabilities := m.probabilities, keyword_matched := some false,
                model_category := none }

/-! ## inference_local.py -/

def INCLUDE_PROBABILITIES : Bool := false

/-- Find the first occurrence of the separator "space slash space",
returning the text before and after it. -/
def splitOnSep : List Char → Option (List Char × List Char)
  | [] => none
  | c :: rest =>
    if startsWithL (lit " / ") (c :: rest) then some ([], List.drop 2 rest)
    else
      match splitOnSep rest with
      | some pp => some (c :: pp.1, pp.2)
      | none => none

/-- `extract_category_parts` from inference_local.py. -/
def extract_category_parts (category : String) : String × Option String :=
  if category = "" then (category, none)
  else
    match splitOnSep category.data with
    | some pp => (⟨pyStripL pp.1⟩, some ⟨pyStripL pp.2⟩)
    | none => (category, none)

/-- A result dictionary of inference_local.py.  `none` models an absent key
(or an explicit Python `None` value). -/
structure Response where
  error : Option String := none
  description : Option String := none
  model_type : Option String := none
  transaction_type : Option String := none
  predicted_category : Option String := none
  predicted_subcategory : Option String := none
  intent : Option String := none
  confidence : Option (List (String × Rat)) := none
  reason : Option String := none
  all_probabilities : Option (List (String × List (String × Rat))) := none
deriving DecidableEq

/-- The `Empty description` dictionary. -/
def emptyDescriptionResponse : Response :=
  { error := some "Empty description", predicted_category := some "Uncategorized" }

/-- Error dictionaries of the shape used for load and prediction failures. -/
def mkErrResponse (msg : String) : Response :=
  { error := some msg, predicted_category := some "Uncategorized" }

def modelNotLoadedResponse : Response := mkErrResponse "Model not loaded"

/-- Python truthiness of the optional subcategory: the response key is only
set when the subcategory is present and non-empty. -/
def truthyOpt : Option String → Option String
  | some s => if s = "" then none else some s
  | none => none

/-- One record of user_corrections.json. -/
structure CorrectionRecord where
  narration : String
  category : String
  userId : Option String
  transactionId : Option String
  timestamp : String
deriving DecidableEq

/-- Python dict assignment: overwrite in place, else append (insertion
order preserved, as in CPython). -/
def dictInsert (d : List (String × String)) (k v : String) : List (String × String) :=
  if d.any (fun p => p.1 == k) then d.map (fun p => if p.1 = k then (k, v) else p)
  else d ++ [(k, v)]

def dictFind (d : List (String × String)) (k : String) : Option String :=
  (d.find? (fun p => p.1 == k)).map (fun p => p.2)

/-- Key and value derivation for one correction record inside
`load_corrections`: skip blank narrations and categories, preprocess with
P2P preservation, fall back to the raw lower-cased narration when
preprocessing yields an empty string. -/
def deriveCorrectionEntry (r : CorrectionRecord) : Option (String × String) :=
  let n := pyStrip r.narration
  let c := pyStrip r.category
  if n = "" ∨ c = "" then none
  else
    let pre := preprocess_upi_narration n true
    if pre ≠ "" ∧ pyStrip pre ≠ "" then some (pyStrip (strLower pre), c)
    else some (pyStrip (strLower n), c)

/-- `load_corrections` from inference_local.py: fold the record list in
file order into the in-memory dict. -/
def load_corrections (records : List CorrectionRecord) : List (String × String) :=
  records.foldl (fun acc r =>
    match deriveCorrectionEntry r with
    | some kv => dictInsert acc kv.1 kv.2
    | none => acc) []

/-- `get_corrected_category` from inference_local.py. -/
def get_corrected_category (store : List (String × String)) (description : String) :
    Option String :=
  if pyStrip description = "" then none
  else if store = [] then none
  else
    let pre0 := preprocess_upi_narration description true
    let pre := if pre0 = "" ∨ pyStrip pre0 = "" then pyStrip description else pre0
    dictFind store (pyStrip (strLower pre))

/-- The type and intent obtained best-effort inside the user-correction
branch of `predict`: the classifier is consulted on the cleaned text when
loaded, and any failure leaves the defaults. -/
def correctionTypeIntent (pOpt : Option Predictor) (description : String) : String × String :=
  match pOpt with
  | none => ("N/A", "N/A")
  | some p =>
    let cleanDesc := clean_text description
    if cleanDesc = "" then ("N/A", "N/A")
    else
      match p.predictWithModel cleanDesc with
      | .ok m => (m.transaction_type, m.intent)
      | .error _ => ("N/A", "N/A")

/-- The response of the user-correction branch of `predict`. -/
def correctionResponse (description : String) (ti : String × String) (cat : String) : Response :=
  let parts := extract_category_parts cat
  { description := some description, model_type := some "User_Correction",
    transaction_type := some ti.1, predicted_category := some parts.1,
    intent := some ti.2, confidence := some [("category", 1)],
    reason := some "user_correction", predicted_subcategory := truthyOpt parts.2 }

/-- Steps 2 and 3 of `predict` (no correction hit): delegate to the
predictor, decompose the category, and derive model_type and reason.  The
dictionary key `user_correction` is never produced by
`DistilBertPredictor.predict`, so its lookup with default False is the
constant `false`. -/
def predictStep2ok (description : String) (result : PredictorResult) : Response :=
  let parts := extract_category_parts result.category
  let userCorrectionFlag := false
  let mt :=
    if userCorrectionFlag then ("User_Correction", "user_correction")
    else if result.keyword_matched.getD false then ("Keyword_Match", "keyword_match")
    else ("DistilBERT", "ml_prediction")
  { description := some description, model_type := some mt.1,
    transaction_type := some result.transaction_type,
    predicted_category := some parts.1, intent := some result.intent,
    confidence := some result.confidence, reason := some mt.2,
    all_probabilities := if INCLUDE_PROBABILITIES then some result.probabilities else none,
    predicted_subcategory := truthyOpt parts.2 }

def predictStep2 : Option Predictor → String → Response
  | none, _ => modelNotLoadedResponse
  | some p, description =>
    match dbPredict p description with
    | .error e => mkErrResponse e
    | .ok result => predictStep2ok description result

/-- `predict` from inference_local.py.  The correction branch is guarded by
Python truthiness, so an empty corrected category falls through. -/
def predict (store : List (String × String)) (pOpt : Option Predictor)
    (description : String) : Response :=
  if pyStrip description = "" then emptyDescriptionResponse
  else
    match get_corrected_category store description with
    | some cat =>
      if cat = "" then predictStep2 pOpt description
      else correctionResponse description (correctionTypeIntent pOpt description) cat
    | none => predictStep2 pOpt description

/-- The correction response built inside `predict_batch` (note: transaction
type and intent are hard-coded to N/A there, unlike the single-item path). -/
def batchCorrectionResponse (desc cat : String) : Response :=
  let parts := extract_category_parts cat
  { description := some desc, model_type := some "User_Correction",
    transaction_type := some "N/A", predicted_category := some parts.1,
    intent := some "N/A", confidence := some [("category", 1)],
    reason := some "user_correction", predicted_subcategory := truthyOpt parts.2 }

/-- The per-item response built in the second pass of `predict_batch`
(model_type and reason are hard-coded there). -/
def batchModelResponse (desc : String) (result : PredictorResult) : Response :=
  let parts := extract_category_parts result.category
  { description := some desc, model_type := some "DistilBERT",
    transaction_type := some result.transaction_type,
    predicted_category := some parts.1, intent := some result.intent,
    confidence := some result.confidence, reason := some "ml_prediction",
    all_probabilities := if INCLUDE_PROBABILITIES then some result.probabilities else none,
    predicted_subcategory := truthyOpt parts.2 }

/-- First pass of `predict_batch`: `i` is the running `enumerate` index;
returns the partially filled result list, the narrations still needing the
model, and their indices. -/
def predictBatchPass1 (store : List (String × String)) :
    List String → Nat → List (Option Response) × List String × List Nat
  | [], _ => ([], [], [])
  | d :: rest, i =>
    let tail := predictBatchPass1 store rest (i + 1)
    if pyStrip d = "" then (some emptyDescriptionResponse :: tail.1, tail.2.1, tail.2.2)
    else
      match get_corrected_category store d with
      | some cat =>
        if cat = "" then (none :: tail.1, d :: tail.2.1, i :: tail.2.2)
        else (some (batchCorrectionResponse d cat) :: tail.1, tail.2.1, tail.2.2)
      | none => (none :: tail.1, d :: tail.2.1, i :: tail.2.2)

/-- Second pass of `predict_batch`: place values at their recorded indices. -/
def fillResults (rs : List (Option Response)) (pairs : List (Nat × Response)) :
    List (Option Response) :=
  pairs.foldl (fun acc pr => acc.set pr.1 (some pr.2)) rs

/-- The sequential second-pass loop of `predict_batch`: evaluate each
pending narration in order, aborting at the first exception (as the Python
for-loop inside the try block does). -/
def exceptMapM (f : String → Except String Response) : List String → Except String (List Response)
  | [] => .ok []
  | d :: rest =>
    match f d with
    | .error e => .error e
    | .ok v =>
      match exceptMapM f rest with
      | .error e => .error e
      | .ok vs => .ok (v :: vs)

/-- `predict_batch` from inference_local.py.  A model exception during the
second-pass loop aborts it and stamps the error dictionary on every index
that was awaiting the model.  The `getD` default is never reached: every
placeholder cell is filled by the second pass. -/
def predict_batch (store : List (String × String)) (pOpt : Option Predictor)
    (descs : List String) : List Response :=
  match pOpt with
  | none => List.replicate descs.length modelNotLoadedResponse
  | some p =>
    let pass1 := predictBatchPass1 store descs 0
    let rs := pass1.1
    let ms := pass1.2.1
    let idxs := pass1.2.2
    let filled :=
      if ms = [] then rs
      else
        match exceptMapM (fun d => (dbPredict p d).map (fun r => batchModelResponse d r)) ms with
        | .ok vals => fillResults rs (idxs.zip vals)
        | .error e => fillResults rs (idxs.map (fun i => (i, mkErrResponse e)))
    filled.map (fun r => r.getD modelNotLoadedResponse)

/-! ## add_correction.py -/

/-- Python truthiness plus strip of the optional metadata arguments. -/
def applyOptMeta (o : Option String) : Option String :=
  match o with
  | some u => if u ≠ "" ∧ pyStrip u ≠ "" then some (pyStrip u) else none
  | none => none

/-- The duplicate scan of `add_correction`: the first record with the same
lower-cased narration and the same category has its metadata refreshed. -/
def updateFirstDup (nr : CorrectionRecord) : List CorrectionRecord → Option (List CorrectionRecord)
  | [] => none
  | r :: rest =>
    if strLower (pyStrip r.narration) = strLower nr.narration ∧ pyStrip r.category = nr.category then
      some ({ r with
              timestamp := nr.timestamp,
              userId := (match nr.userId with | some v => some v | none => r.userId),
              transactionId :=
                (match nr.transactionId with | some v => some v | none => r.transactionId) } :: rest)
    else (updateFirstDup nr rest).map (fun l => r :: l)

/-- `add_correction` from add_correction.py: `none` is the validation
failure (blank narration or category); otherwise the record list after the
append-or-update, with `now` standing for the timestamp. -/
def add_correction (records : List CorrectionRecord) (narration category : String)
    (userId transactionId : Option String) (now : String) : Option (List CorrectionRecord) :=
  if pyStrip narration = "" then none
  else if pyStrip category = "" then none
  else
    let nr : CorrectionRecord :=
      { narration := pyStrip narration, category := pyStrip category,
        userId := applyOptMeta userId, transactionId := applyOptMeta transactionId,
        timestamp := now }
    match updateFirstDup nr records with
    | some updated => some updated
    | none => some (records ++ [nr])

/-! ## Auxiliary lemmas on the character utilities -/

/-- Structural version of the trailing strip, convenient for induction. -/
def dropEndAux (p : Char → Bool) : List Char → List Char
  | [] => []
  | c :: rest =>
    match dropEndAux p rest with
    | [] => if p c then [] else [c]
    | r :: rs => c :: (r :: rs)

/-- The category of the last entry with a given key, reading the derived
entry list from the end. -/
def lastLookup (entries : List (String × String)) (k : String) : Option String :=
  (entries.reverse.find? (fun e => e.1 == k)).map (fun e => e.2)

/-- The per-item semantics of `predict_batch` when no exception interferes:
empty items map to the empty-description dictionary, truthy correction hits
to the batch correction response, and everything else to the model response
(or the error dictionary when the cascade raises on this very item). -/
def batchItemResult (store : List (String × String)) (p : Predictor) (d : String) : Response :=
  if pyStrip d = "" then emptyDescriptionResponse
  else
    match get_corrected_category store d with
    | some cat =>
      if cat = "" then
        (match dbPredict p d with
         | .ok res => batchModelResponse d res
         | .error e => mkErrResponse e)
      else batchCorrectionResponse d cat
    | none =>
      match dbPredict p d with
      | .ok res => batchModelResponse d res
      | .error e => mkErrResponse e

/-- Test oracle: a loaded classifier with no keyword mappings that labels
everything as a P2C purchase. -/
def oracleP2C : Predictor :=
  ⟨[], fun _ => .ok ⟨"P2C", "Shopping / Online", "purchase", [("category", 1)], []⟩⟩

/-- Test oracle: a classifier whose keyword mappings contain "zomato". -/
def oracleZomato : Predictor :=
  ⟨[("zomato", "Food / Delivery")],
   fun _ => .ok ⟨"P2C", "Shopping / Online", "purchase", [("category", 1)], []⟩⟩

/-- Test oracle: a classifier that raises exactly on the narration BAD. -/
def oracleBoom : Predictor :=
  ⟨[], fun s =>
    if s = "BAD" then .error "boom"
    else .ok ⟨"P2C", "Shopping / Online", "purchase", [("category", 1)], []⟩⟩

/-! ## A decidable fixed-point guard for the normalizer (C6) -/

/-- Does the Boolean test fire at some suffix of the list? -/
def suffixHas (q : List Char → Bool) : List Char → Bool
  | [] => q []
  | c :: rest => q (c :: rest) || suffixHas q rest

/-- A whitespace defect at the start of the list: a whitespace character
that is not the plain space, or two adjacent whitespace characters. -/
def wsDefect : List Char → Bool
  | c :: rest =>
    isPySpace c &&
      (!(c == ' ') || (match rest with | d :: _ => isPySpace d | [] => false))
  | [] => false

/-- The substrings that anchor every rewriting pass of the normalizer in
non-P2P mode (case-insensitive occurrences). -/
def c6Anchors : List (List Char) :=
  [lit "paytm", lit "ACH", lit "CHQ", lit "CHEQUE", lit "TRANSFER", lit "ltd",
   lit "groc", lit "foods", lit "YOU ARE PAYING FOR", lit "PAYMENT FOR",
   lit "TRANSACTION", lit "GENERATING DYNAMIC", lit "REF NO", lit "TXN"]

/-- Decidable guard on a string: no separator or at-sign characters, no run
of nine or more digits, every whitespace character is a single plain space,
no whitespace at either end, and no anchor substring occurs
case-insensitively.  Strings satisfying the guard are fixed points of the
normalizer in non-P2P mode. -/
def c6Fixed (s : List Char) : Bool :=
  s.all (fun c => !(isSepDash c) && !(c == '@')) &&
  !(suffixHas (fun t => decide (9 ≤ runLen isDigitChar t)) s) &&
  !(suffixHas wsDefect s) &&
  c6Anchors.all (fun a => !(containsCi a s)) &&
  (match s with | [] => true | c :: _ => !(isPySpace c)) &&
  (match s.getLast? with | none => true | some c => !(isPySpace c))

theorem char_le_iff_toNat {a b : Char} : a ≤ b ↔ a.toNat ≤ b.toNat := by
  rw [Char.le_def]
  exact ⟨fun h => h, fun h => h⟩

theorem isUpperAZ_iff {c : Char} : isUpperAZ c = true ↔ 65 ≤ c.toNat ∧ c.toNat ≤ 90 := by
  have hA : ('A' : Char).toNat = 65 := by decide
  have hZ : ('Z' : Char).toNat = 90 := by decide
  simp only [isUpperAZ, Bool.and_eq_true, decide_eq_true_eq, char_le_iff_toNat, hA, hZ]

theorem toNat_lowerChar_of_upper {c : Char} (h : isUpperAZ c = true) :
    (lowerChar c).toNat = c.toNat + 32 := by
  have hr := isUpperAZ_iff.mp h
  have hv : (c.val.toBitVec.toNat + 32).isValidChar := by
    refine Or.inl ?_
    simp only [Char.toNat, UInt32.toNat] at hr
    omega
  simp [lowerChar, h, Char.ofNat, Char.toNat, Char.ofNatAux, hv, UInt32.toNat,
    BitVec.toNat_ofNatLt]

theorem lowerChar_of_not_upper {c : Char} (h : isUpperAZ c = false) : lowerChar c = c := by
  simp [lowerChar, h]

theorem isUpperAZ_lowerChar (c : Char) : isUpperAZ (lowerChar c) = false := by
  cases hu : isUpperAZ c with
  | true =>
    have h1 := toNat_lowerChar_of_upper hu
    have h2 := isUpperAZ_iff.mp hu
    cases hx : isUpperAZ (lowerChar c) with
    | false => rfl
    | true =>
      have h3 := isUpperAZ_iff.mp hx
      omega
  | false => rw [lowerChar_of_not_upper hu, hu]

theorem lowerChar_idem (c : Char) : lowerChar (lowerChar c) = lowerChar c :=
  lowerChar_of_not_upper (isUpperAZ_lowerChar c)

theorem lowerL_idem (s : List Char) : lowerL (lowerL s) = lowerL s := by
  simp only [lowerL, List.map_map]
  exact List.map_congr_left (fun c _ => lowerChar_idem c)

theorem isPySpace_lowerChar (c : Char) : isPySpace (lowerChar c) = isPySpace c := by
  cases hu : isUpperAZ c with
  | false => rw [lowerChar_of_not_upper hu]
  | true =>
    have h1 := toNat_lowerChar_of_upper hu
    have h2 := isUpperAZ_iff.mp hu
    have hc : isPySpace c = false := by
      cases hx : isPySpace c with
      | false => rfl
      | true =>
        have hd : c.toNat = 32 ∨ c.toNat = 9 ∨ c.toNat = 10 ∨ c.toNat = 13 ∨
            c.toNat = 11 ∨ c.toNat = 12 := by
          simp only [isPySpace, Bool.or_eq_true, beq_iff_eq] at hx
          rcases hx with ((((h | h) | h) | h) | h) | h <;> subst h <;> decide
        omega
    have hlc : isPySpace (lowerChar c) = false := by
      cases hx : isPySpace (lowerChar c) with
      | false => rfl
      | true =>
        have hd : (lowerChar c).toNat = 32 ∨ (lowerChar c).toNat = 9 ∨
            (lowerChar c).toNat = 10 ∨ (lowerChar c).toNat = 13 ∨
            (lowerChar c).toNat = 11 ∨ (lowerChar c).toNat = 12 := by
          simp only [isPySpace, Bool.or_eq_true, beq_iff_eq] at hx
          rcases hx with ((((h | h) | h) | h) | h) | h <;> rw [h] <;> decide
        omega
    rw [hc, hlc]

theorem isPySpace_comp_lowerChar : (fun c => isPySpace (lowerChar c)) = isPySpace :=
  funext fun c => isPySpace_lowerChar c

theorem pyDropEnd_eq_aux (p : Char → Bool) (l : List Char) :
    pyDropEnd p l = dropEndAux p l := by
  induction l with
  | nil => rfl
  | cons c rest ih =>
    have hexp : pyDropEnd p (c :: rest)
        = ((rest.reverse ++ [c]).dropWhile p).reverse := by
      simp [pyDropEnd]
    rw [hexp, List.dropWhile_append]
    by_cases hnil : rest.reverse.dropWhile p = []
    · have he : (rest.reverse.dropWhile p).isEmpty = true := by simp [hnil]
      have haux : dropEndAux p rest = [] := by
        rw [← ih]; simp [pyDropEnd, hnil]
      rw [he]
      simp only [if_true, dropEndAux, haux]
      by_cases hp : p c
      · simp [List.dropWhile_cons_of_pos hp, hp]
      · simp [List.dropWhile_cons_of_neg hp, hp]
    · have he : (rest.reverse.dropWhile p).isEmpty = false := by
        cases hx : rest.reverse.dropWhile p
        · exact absurd hx hnil
        · simp
      rw [if_neg (by simp [he])]
      simp only [List.reverse_append, List.reverse_cons, List.reverse_nil,
        List.nil_append, List.singleton_append]
      have haux : dropEndAux p rest = (rest.reverse.dropWhile p).reverse := by
        rw [← ih]; rfl
      rw [dropEndAux, haux]
      cases hy : (rest.reverse.dropWhile p).reverse with
      | nil =>
        have : rest.reverse.dropWhile p = [] := by
          have := congrArg List.reverse hy
          simpa using this
        exact absurd this hnil
      | cons r rs => rfl

theorem dropWhile_dropEndAux (p : Char → Bool) (s : List Char) :
    (dropEndAux p s).dropWhile p = dropEndAux p (s.dropWhile p) := by
  induction s with
  | nil => rfl
  | cons c rest ih =>
    by_cases hp : p c
    · rw [List.dropWhile_cons_of_pos hp, ← ih]
      cases hx : dropEndAux p rest with
      | nil => simp [dropEndAux, hx, hp]
      | cons r rs => simp [dropEndAux, hx, List.dropWhile_cons_of_pos hp]
    · rw [List.dropWhile_cons_of_neg hp]
      cases hx : dropEndAux p rest with
      | nil => simp [dropEndAux, hx, hp, List.dropWhile_cons_of_neg hp]
      | cons r rs => simp [dropEndAux, hx, List.dropWhile_cons_of_neg hp]

theorem pyDropEnd_idem (p : Char → Bool) (t : List Char) :
    pyDropEnd p (pyDropEnd p t) = pyDropEnd p t := by
  simp [pyDropEnd, List.reverse_reverse, List.dropWhile_idempotent]

theorem dropWhile_pyDropEnd_comm (p : Char → Bool) (t : List Char) :
    (pyDropEnd p t).dropWhile p = pyDropEnd p (t.dropWhile p) := by
  rw [pyDropEnd_eq_aux, pyDropEnd_eq_aux, dropWhile_dropEndAux]

theorem pyStripL_idem (s : List Char) : pyStripL (pyStripL s) = pyStripL s := by
  unfold pyStripL
  rw [dropWhile_pyDropEnd_comm, List.dropWhile_idempotent, pyDropEnd_idem]

theorem dropWhile_lowerL (s : List Char) :
    (lowerL s).dropWhile isPySpace = lowerL (s.dropWhile isPySpace) := by
  unfold lowerL
  rw [List.dropWhile_map]
  have : (isPySpace ∘ lowerChar) = isPySpace := funext fun c => isPySpace_lowerChar c
  rw [this]

theorem pyDropEnd_lowerL (s : List Char) :
    pyDropEnd isPySpace (lowerL s) = lowerL (pyDropEnd isPySpace s) := by
  unfold pyDropEnd lowerL
  rw [← List.map_reverse, ← lowerL, dropWhile_lowerL, lowerL, List.map_reverse]

theorem pyStripL_lowerL (s : List Char) :
    pyStripL (lowerL s) = lowerL (pyStripL s) := by
  unfold pyStripL
  rw [dropWhile_lowerL, pyDropEnd_lowerL]

/-- The keyword normal form is stable: lower-casing and trimming an already
lower-cased and trimmed string changes nothing. -/
theorem keyNorm_idem (k : String) :
    pyStrip (strLower (pyStrip (strLower k))) = pyStrip (strLower k) := by
  show (⟨pyStripL (lowerL (pyStripL (lowerL k.data)))⟩ : String) = ⟨pyStripL (lowerL k.data)⟩
  have h1 : lowerL (pyStripL (lowerL k.data)) = pyStripL (lowerL (lowerL k.data)) :=
    (pyStripL_lowerL (lowerL k.data)).symm
  rw [h1, lowerL_idem, pyStripL_idem]

/-! ## Membership characterisation for the taxonomy loader -/

theorem mem_keyword_filterMap {ks : List String} {f : String → String × String} {e : String × String}
    (h : e ∈ ks.filterMap (fun k => if k ≠ "" then some (f k) else none))
    (hf : ∀ k, (f k).1 = pyStrip (strLower k)) :
    ∃ k : String, e.1 = pyStrip (strLower k) := by
  rw [List.mem_filterMap] at h
  obtain ⟨k, _, hk⟩ := h
  by_cases hne : k = ""
  · simp [hne] at hk
  · simp only [ne_eq, hne, not_false_eq_true, if_true, Option.some_inj] at hk
    exact ⟨k, by rw [← hk, hf]⟩

theorem mem_subcatEntries {cname : String} {subcat : SubcatConfig} {e : String × String}
    (h : e ∈ subcatEntries cname subcat) :
    ∃ k : String, e.1 = pyStrip (strLower k) := by
  unfold subcatEntries at h
  exact mem_keyword_filterMap h (fun k => rfl)

theorem mem_subcat_foldl {cname : String} {subs : List SubcatConfig} {e : String × String} :
    ∀ acc2 : List (String × String),
      e ∈ subs.foldl (fun acc2 subcat => acc2 ++ subcatEntries cname subcat) acc2 →
      e ∈ acc2 ∨ ∃ k : String, e.1 = pyStrip (strLower k) := by
  induction subs with
  | nil => intro acc2 h; exact Or.inl h
  | cons s rest ih =>
    intro acc2 h
    rcases ih _ h with hmem | hk
    · rw [List.mem_append] at hmem
      rcases hmem with hmem | hmem
      · exact Or.inl hmem
      · exact Or.inr (mem_subcatEntries hmem)
    · exact Or.inr hk

theorem mem_catEntries {cat : CatConfig} {e : String × String}
    (h : e ∈ catEntries cat) : ∃ k : String, e.1 = pyStrip (strLower k) := by
  revert h
  unfold catEntries
  cases cat.subcategories with
  | some subs =>
    intro h
    rcases mem_subcat_foldl [] h with hnil | hk
    · simp at hnil
    · exact hk
  | none =>
    intro h
    exact mem_keyword_filterMap h (fun k => rfl)

theorem mem_load_keyword_mappings {cats : List CatConfig} {e : String × String} :
    ∀ acc : List (String × String),
      e ∈ cats.foldl (fun acc cat => acc ++ catEntries cat) acc →
      e ∈ acc ∨ ∃ k : String, e.1 = pyStrip (strLower k) := by
  induction cats with
  | nil => intro acc h; exact Or.inl h
  | cons cat rest ih =>
    intro acc h
    rcases ih _ h with hmem | hk
    · rw [List.mem_append] at hmem
      rcases hmem with hmem | hmem
      · exact Or.inl hmem
      · exact Or.inr (mem_catEntries hmem)
    · exact Or.inr hk

/-! ## Claim theorems: C7, C2, C5, C8 -/

/-- C7: the normalizer maps "ACH D- INDIAN CLEARING CORP-000000RZVBRM" in
non-P2P mode to exactly "ACH DEBIT INDIAN CLEARING CORP": the trailing
clearing code is stripped, ACH D is rewritten to ACH DEBIT, and the
clearing-corporation name is preserved for keyword matching. -/
theorem c7_clearing_corp_normalization :
    preprocess_upi_narration "ACH D- INDIAN CLEARING CORP-000000RZVBRM" false
      = "ACH DEBIT INDIAN CLEARING CORP" := by decide

/-- C2: the write-time key of the correction narration "Starbucks" is
"starbucks", but the read-time key of the raw narration
"UPI-STARBUCKS-999@paytm" is "starbucks 999" (the three-digit run 999 is
not a 9-plus-digit transaction id, so it survives normalization).  The
lookup therefore misses, and resolution does not return a UserCorrection
result, contradicting the claim (and the comment in
`get_corrected_category`, which promises that "UPI-STARBUCKS-123" matches a
correction stored as "STARBUCKS"). -/
theorem c2_starbucks_key_mismatch :
    load_corrections [⟨"Starbucks", "Dining / Cafes", none, none, "t0"⟩]
        = [("starbucks", "Dining / Cafes")]
      ∧ preprocess_upi_narration "UPI-STARBUCKS-999@paytm" true = "STARBUCKS 999"
      ∧ get_corrected_category [("starbucks", "Dining / Cafes")] "UPI-STARBUCKS-999@paytm"
          = none
      ∧ (predict [("starbucks", "Dining / Cafes")] none "UPI-STARBUCKS-999@paytm").model_type
          ≠ some "User_Correction" := by decide

/-- C5 (counterexample): the single-item resolution of the empty narration
has no transaction_type and no intent key at all, rather than the value
"N/A" stated by the claim. -/
theorem c5_counterexample :
    (predict [] none "").transaction_type ≠ some "N/A"
      ∧ (predict [] none "").intent ≠ some "N/A"
      ∧ (predict [] none "").predicted_category = some "Uncategorized" := by decide

/-- C5 (amended): an empty or whitespace-only narration raises no exception;
the single-item result is exactly the "Empty description" dictionary, whose
category is "Uncategorized" and whose transaction_type and intent keys are
absent; the classifier-level predict returns the all-default record, whose
transaction_type and intent are the string "N/A". -/
theorem c5_empty_narration (store : List (String × String)) (pOpt : Option Predictor)
    (s : String) (h : pyStrip s = "") :
    predict store pOpt s = emptyDescriptionResponse
      ∧ ∀ p : Predictor, dbPredict p s = .ok naPredictorResult := by
  constructor
  · simp [predict, h]
  · intro p
    simp [dbPredict, h]

theorem c5_empty_narration_witness :
    pyStrip "  " = "" ∧ predict [] none "  " = emptyDescriptionResponse :=
  ⟨by decide, (c5_empty_narration [] none "  " (by decide)).1⟩

/-- C8 (counterexample): a whitespace-only keyword is not dropped by the
taxonomy loader; it is stored as the empty string. -/
theorem c8_counterexample :
    load_keyword_mappings [⟨"Food", some [⟨"Cafes", [" "]⟩], []⟩]
        = [("", "Food / Cafes")]
      ∧ ¬ (∀ e ∈ load_keyword_mappings [⟨"Food", some [⟨"Cafes", [" "]⟩], []⟩],
            e.1 ≠ "") := by decide

/-- C8 (amended): every entry produced by the taxonomy loader has its
keyword in lower-cased trimmed normal form (it equals its own lower-cased,
trimmed self); empty-string keywords are dropped, but whitespace-only
keywords survive as empty strings. -/
theorem c8_keywords_normalized (cats : List CatConfig) (e : String × String)
    (h : e ∈ load_keyword_mappings cats) :
    e.1 = pyStrip (strLower e.1) := by
  have hmem := @mem_load_keyword_mappings cats e [] h
  rcases hmem with hnil | ⟨k, hk⟩
  · simp at hnil
  · rw [hk]
    exact (keyNorm_idem k).symm

theorem c8_keywords_normalized_witness :
    (("dining", "Food / Out") ∈ load_keyword_mappings
        [⟨"Food", some [⟨"Out", [" DINING "]⟩], []⟩])
      ∧ "dining" = pyStrip (strLower "dining") :=
  ⟨by decide,
   c8_keywords_normalized [⟨"Food", some [⟨"Out", [" DINING "]⟩], []⟩]
     ("dining", "Food / Out") (by decide)⟩

/-! ## Last-write-wins semantics of the correction store (C10) -/

theorem find?_append_pairs (p : String × String → Bool) :
    ∀ l1 l2 : List (String × String),
      (l1 ++ l2).find? p =
        (match l1.find? p with
         | some v => some v
         | none => l2.find? p) := by
  intro l1 l2
  induction l1 with
  | nil => simp
  | cons a rest ih =>
    by_cases hp : p a
    · simp [List.find?_cons_of_pos _ hp]
    · have hp2 : p a = false := by
        cases hx : p a
        · rfl
        · exact absurd hx hp
      simp [List.find?_cons_of_neg _ hp, ih]

theorem find?_map_replace (k : String) (v : String) (k2 : String) :
    ∀ d : List (String × String),
      ((d.map (fun p => if p.1 = k then (k, v) else p)).find? (fun p => p.1 == k2)) =
        (if k2 = k then (if d.any (fun p => p.1 == k) then some (k, v) else none)
         else d.find? (fun p => p.1 == k2)) := by
  intro d
  induction d with
  | nil => by_cases h : k2 = k <;> simp [h]
  | cons a rest ih =>
    by_cases ha : a.1 = k
    · simp only [List.map_cons, ha, if_true]
      by_cases h2 : k2 = k
      · subst h2
        simp [List.find?_cons_of_pos, List.any_cons, ha]
      · have : ((k, v).1 == k2) = false := by
          simp only [beq_eq_false_iff_ne, ne_eq]
          exact fun hc => h2 hc.symm
        rw [List.find?_cons_of_neg _ (by simp [this]), ih]
        simp only [h2, if_false]
        have hak2 : (a.1 == k2) = false := by
          simp only [beq_eq_false_iff_ne, ne_eq, ha]
          exact fun hc => h2 hc.symm
        rw [List.find?_cons_of_neg _ (by simp [hak2])]
    · simp only [List.map_cons, ha, if_false]
      by_cases h2 : k2 = k
      · subst h2
        have hak2 : (a.1 == k2) = false := by
          simp only [beq_eq_false_iff_ne, ne_eq]
          exact ha
        rw [List.find?_cons_of_neg _ (by simp [hak2]), ih]
        simp only [if_true, List.any_cons, hak2, Bool.false_or]
      · by_cases hak2 : a.1 = k2
        · rw [List.find?_cons_of_pos _ (by simp [hak2]),
            List.find?_cons_of_pos _ (by simp [hak2])]
          simp [h2]
        · rw [List.find?_cons_of_neg _ (by simp [hak2]),
            List.find?_cons_of_neg _ (by simp [hak2]), ih]
          simp [h2]

theorem dictFind_dictInsert (d : List (String × String)) (k v k2 : String) :
    dictFind (dictInsert d k v) k2 = if k2 = k then some v else dictFind d k2 := by
  unfold dictInsert dictFind
  by_cases ha : d.any (fun p => p.1 == k)
  · rw [if_pos ha, find?_map_replace]
    by_cases h2 : k2 = k
    · simp [h2, ha]
    · simp [h2]
  · rw [if_neg ha, find?_append_pairs]
    by_cases h2 : k2 = k
    · subst h2
      have hfind : d.find? (fun p => p.1 == k2) = none := by
        rw [List.find?_eq_none]
        intro x hx
        intro hcon
        exact ha (List.any_of_mem hx hcon)
      simp [hfind]
    · have : ((k, v).1 == k2) = false := by
        simp only [beq_eq_false_iff_ne, ne_eq]
        exact fun hc => h2 hc.symm
      cases hf : d.find? (fun p => p.1 == k2) <;> simp [this, h2, hf]

theorem lastLookup_cons (e : String × String) (rest : List (String × String)) (k : String) :
    lastLookup (e :: rest) k =
      (match lastLookup rest k with
       | some v => some v
       | none => if k = e.1 then some e.2 else none) := by
  unfold lastLookup
  rw [List.reverse_cons, find?_append_pairs]
  cases hf : rest.reverse.find? (fun x => x.1 == k) with
  | some v => simp
  | none =>
    simp only
    by_cases h2 : k = e.1
    · rw [List.find?_cons_of_pos _ (by simp [h2.symm])]
      simp [h2]
    · rw [List.find?_cons_of_neg _ (by simp; exact fun hc => h2 hc.symm)]
      simp [h2]

theorem load_fold_lastLookup (k : String) :
    ∀ (entries : List (String × String)) (acc : List (String × String)),
      dictFind (entries.foldl (fun a e => dictInsert a e.1 e.2) acc) k =
        (match lastLookup entries k with
         | some v => some v
         | none => dictFind acc k) := by
  intro entries
  induction entries with
  | nil => intro acc; simp [lastLookup]
  | cons e rest ih =>
    intro acc
    rw [List.foldl_cons, ih, lastLookup_cons]
    cases hl : lastLookup rest k with
    | some v => simp
    | none =>
      simp only [dictFind_dictInsert]
      by_cases he : k = e.1 <;> simp [he]

theorem load_corrections_eq_entry_fold (records : List CorrectionRecord) :
    load_corrections records =
      (records.filterMap deriveCorrectionEntry).foldl (fun a e => dictInsert a e.1 e.2) [] := by
  unfold load_corrections
  generalize ([] : List (String × String)) = acc
  induction records generalizing acc with
  | nil => rfl
  | cons r rest ih =>
    rw [List.foldl_cons]
    cases hd : deriveCorrectionEntry r with
    | none => simp only [hd, List.filterMap_cons, ih]
    | some kv => simp only [hd, List.filterMap_cons, List.foldl_cons, ih]

/-- C10 (part b helper): if no record matches the new correction's
narration-and-category pair, the duplicate scan finds nothing. -/
theorem updateFirstDup_none (nr : CorrectionRecord) :
    ∀ records : List CorrectionRecord,
      (∀ r ∈ records,
        ¬(strLower (pyStrip r.narration) = strLower nr.narration ∧
          pyStrip r.category = nr.category)) →
      updateFirstDup nr records = none := by
  intro records
  induction records with
  | nil => intro _; rfl
  | cons r rest ih =>
    intro h
    unfold updateFirstDup
    rw [if_neg (h r (List.mem_cons_self r rest))]
    rw [ih (fun x hx => h x (List.mem_cons_of_mem r hx))]
    rfl

/-- C10: colliding correction keys resolve last-write-wins, and the
correction writer appends a new record for a known narration when the
category differs.  Part one: for every record list and key, looking the key
up in the loaded store returns the category of the last record in file
order whose derived key matches.  Part two: `add_correction` deduplicates
only on equal (lower-cased) narration AND equal category, so when no
existing record has both, the new record is appended at the end — in
particular a record with the same narration but a different category is
appended, creating exactly the colliding keys that part one resolves by
last-write-wins. -/
theorem c10_last_write_wins :
    (∀ (records : List CorrectionRecord) (k : String),
      dictFind (load_corrections records) k =
        lastLookup (records.filterMap deriveCorrectionEntry) k)
    ∧ (∀ (records : List CorrectionRecord) (narration category : String)
        (userId transactionId : Option String) (now : String),
        pyStrip narration ≠ "" → pyStrip category ≠ "" →
        (∀ r ∈ records,
          ¬(strLower (pyStrip r.narration) = strLower (pyStrip narration) ∧
            pyStrip r.category = pyStrip category)) →
        add_correction records narration category userId transactionId now =
          some (records ++
            [⟨pyStrip narration, pyStrip category, applyOptMeta userId,
              applyOptMeta transactionId, now⟩])) := by
  constructor
  · intro records k
    rw [load_corrections_eq_entry_fold, load_fold_lastLookup]
    cases hl : lastLookup (records.filterMap deriveCorrectionEntry) k <;> simp [dictFind]
  · intro records narration category userId transactionId now hn hc hnodup
    have hupd : updateFirstDup
        ⟨pyStrip narration, pyStrip category, applyOptMeta userId,
          applyOptMeta transactionId, now⟩ records = none :=
      updateFirstDup_none _ records hnodup
    simp only [add_correction, if_neg hn, if_neg hc, hupd]

theorem c10_last_write_wins_witness :
    (dictFind
        (load_corrections
          [⟨"Starbucks", "CatA", none, none, "t1"⟩, ⟨"Starbucks", "CatB", none, none, "t2"⟩])
        "starbucks"
      = lastLookup
          ((([⟨"Starbucks", "CatA", none, none, "t1"⟩,
              ⟨"Starbucks", "CatB", none, none, "t2"⟩] :
              List CorrectionRecord).filterMap deriveCorrectionEntry)) "starbucks")
    ∧ dictFind
        (load_corrections
          [⟨"Starbucks", "CatA", none, none, "t1"⟩, ⟨"Starbucks", "CatB", none, none, "t2"⟩])
        "starbucks" = some "CatB"
    ∧ (pyStrip "Starbucks" ≠ "" ∧ pyStrip "CatB" ≠ ""
        ∧ add_correction [⟨"Starbucks", "CatA", none, none, "t1"⟩] "Starbucks" "CatB"
            none none "t2"
          = some [⟨"Starbucks", "CatA", none, none, "t1"⟩,
                  ⟨"Starbucks", "CatB", none, none, "t2"⟩]) :=
  ⟨(c10_last_write_wins).1
      [⟨"Starbucks", "CatA", none, none, "t1"⟩, ⟨"Starbucks", "CatB", none, none, "t2"⟩]
      "starbucks",
   by decide,
   ⟨by decide, by decide,
    (c10_last_write_wins).2 [⟨"Starbucks", "CatA", none, none, "t1"⟩] "Starbucks" "CatB"
      none none "t2" (by decide) (by decide) (by decide)⟩⟩

/-! ## Claim C1: correction precedence in single-item resolution -/

/-- Helper: a correction hit implies the narration is not blank. -/
theorem get_corrected_category_some_strip {store : List (String × String)} {d cat : String}
    (hcat : get_corrected_category store d = some cat) : pyStrip d ≠ "" := by
  intro h0
  unfold get_corrected_category at hcat
  rw [if_pos h0] at hcat
  exact Option.noConfusion hcat

/-- Helper: under a truthy correction hit, `predict` returns exactly the
correction response built from the best-effort type and intent. -/
theorem predict_correction_hit {store : List (String × String)} {pOpt : Option Predictor}
    {d cat : String} (hcat : get_corrected_category store d = some cat) (hne : cat ≠ "") :
    predict store pOpt d = correctionResponse d (correctionTypeIntent pOpt d) cat := by
  unfold predict
  rw [if_neg (get_corrected_category_some_strip hcat), hcat]
  exact if_neg hne

/-- C1: when the narration's normalized form hits the loaded correction
store (with a non-blank category, as every loaded entry has), single-item
resolution takes category and subcategory from the correction, never
consults the keyword matcher or the classifier for the category field (the
category, subcategory and confidence are identical under every classifier
state), returns confidence exactly (category, 1), and obtains transaction
type and intent from the classifier best-effort only, defaulting to "N/A"
when the classifier is absent, the cleaned text is empty, or the
classifier raises. -/
theorem c1_correction_precedence (store : List (String × String)) (pOpt : Option Predictor)
    (d cat : String)
    (hcat : get_corrected_category store d = some cat) (hne : cat ≠ "") :
    predict store pOpt d = correctionResponse d (correctionTypeIntent pOpt d) cat
      ∧ (predict store pOpt d).model_type = some "User_Correction"
      ∧ (predict store pOpt d).predicted_category = some (extract_category_parts cat).1
      ∧ (predict store pOpt d).predicted_subcategory = truthyOpt (extract_category_parts cat).2
      ∧ (predict store pOpt d).confidence = some [("category", 1)]
      ∧ (predict store pOpt d).reason = some "user_correction"
      ∧ (∀ qOpt : Option Predictor,
          (predict store qOpt d).predicted_category = (predict store pOpt d).predicted_category
          ∧ (predict store qOpt d).predicted_subcategory
              = (predict store pOpt d).predicted_subcategory
          ∧ (predict store qOpt d).confidence = (predict store pOpt d).confidence)
      ∧ (pOpt = none →
          (predict store pOpt d).transaction_type = some "N/A"
          ∧ (predict store pOpt d).intent = some "N/A")
      ∧ (∀ p : Predictor, pOpt = some p →
          (clean_text d = "" →
            (predict store pOpt d).transaction_type = some "N/A"
            ∧ (predict store pOpt d).intent = some "N/A")
          ∧ (∀ m : ModelResult, p.predictWithModel (clean_text d) = .ok m → clean_text d ≠ "" →
              (predict store pOpt d).transaction_type = some m.transaction_type
              ∧ (predict store pOpt d).intent = some m.intent)
          ∧ (∀ e : String, p.predictWithModel (clean_text d) = .error e → clean_text d ≠ "" →
              (predict store pOpt d).transaction_type = some "N/A"
              ∧ (predict store pOpt d).intent = some "N/A")) := by
  have hpred : ∀ r : Option Predictor,
      predict store r d = correctionResponse d (correctionTypeIntent r d) cat :=
    fun r => predict_correction_hit hcat hne
  refine ⟨hpred pOpt, ?_, ?_, ?_, ?_, ?_, ?_, ?_, ?_⟩
  · rw [hpred pOpt]; rfl
  · rw [hpred pOpt]; rfl
  · rw [hpred pOpt]; rfl
  · rw [hpred pOpt]; rfl
  · rw [hpred pOpt]; rfl
  · intro qOpt
    rw [hpred pOpt, hpred qOpt]
    exact ⟨rfl, rfl, rfl⟩
  · intro hnone
    subst hnone
    rw [hpred none]
    exact ⟨rfl, rfl⟩
  · intro p hp
    subst hp
    rw [hpred (some p)]
    refine ⟨?_, ?_, ?_⟩
    · intro hclean
      unfold correctionTypeIntent correctionResponse
      simp [hclean]
    · intro m hm hclean
      unfold correctionTypeIntent correctionResponse
      simp [hclean, hm]
    · intro e he hclean
      unfold correctionTypeIntent correctionResponse
      simp [hclean, he]

theorem c1_correction_precedence_witness :
    get_corrected_category [("starbucks", "Dining / Cafes")] "Starbucks"
        = some "Dining / Cafes"
      ∧ ("Dining / Cafes" : String) ≠ ""
      ∧ (predict [("starbucks", "Dining / Cafes")] none "Starbucks").model_type
          = some "User_Correction"
      ∧ (predict [("starbucks", "Dining / Cafes")] none "Starbucks").confidence
          = some [("category", 1)] :=
  ⟨by decide, by decide,
   (c1_correction_precedence [("starbucks", "Dining / Cafes")] none "Starbucks"
      "Dining / Cafes" (by decide) (by decide)).2.1,
   (c1_correction_precedence [("starbucks", "Dining / Cafes")] none "Starbucks"
      "Dining / Cafes" (by decide) (by decide)).2.2.2.2.1⟩

/-! ## Claim C9: UserCorrection implies category confidence 1 -/

theorem predictStep2_not_user_correction (pOpt : Option Predictor) (d : String) :
    (predictStep2 pOpt d).model_type ≠ some "User_Correction" := by
  cases pOpt with
  | none => simp [predictStep2, modelNotLoadedResponse, mkErrResponse]
  | some p =>
    rw [show predictStep2 (some p) d = (match dbPredict p d with
        | .error e => mkErrResponse e
        | .ok result => predictStep2ok d result) from rfl]
    cases hdb : dbPredict p d with
    | error e => simp [mkErrResponse]
    | ok result =>
      by_cases hk : result.keyword_matched.getD false = true
      · simp [predictStep2ok, hk]
      · simp [predictStep2ok, hk]

/-- Shapes of the cells produced by the first pass of `predict_batch`. -/
theorem pass1_cell_shape (store : List (String × String)) :
    ∀ (descs : List String) (i : Nat) (cell : Option Response),
      cell ∈ (predictBatchPass1 store descs i).1 →
      cell = some emptyDescriptionResponse ∨ cell = none ∨
        ∃ dd cc : String, cc ≠ "" ∧ cell = some (batchCorrectionResponse dd cc) := by
  intro descs
  induction descs with
  | nil => intro i cell h; simp [predictBatchPass1] at h
  | cons dd rest ih =>
    intro i cell h
    unfold predictBatchPass1 at h
    by_cases hstrip : pyStrip dd = ""
    · rw [if_pos hstrip] at h
      rcases List.mem_cons.mp h with hc | hc
      · exact Or.inl hc
      · exact ih (i + 1) cell hc
    · rw [if_neg hstrip] at h
      cases hcc : get_corrected_category store dd with
      | some cat =>
        rw [hcc] at h
        simp only [] at h
        by_cases hne : cat = ""
        · rw [if_pos hne] at h
          rcases List.mem_cons.mp h with hc | hc
          · exact Or.inr (Or.inl hc)
          · exact ih (i + 1) cell hc
        · rw [if_neg hne] at h
          rcases List.mem_cons.mp h with hc | hc
          · exact Or.inr (Or.inr ⟨dd, cat, hne, hc⟩)
          · exact ih (i + 1) cell hc
      | none =>
        rw [hcc] at h
        simp only [] at h
        rcases List.mem_cons.mp h with hc | hc
        · exact Or.inr (Or.inl hc)
        · exact ih (i + 1) cell hc

/-- Cells after the second pass come from the first pass or from the filled
pairs. -/
theorem mem_fillResults {cell : Option Response} :
    ∀ (pairs : List (Nat × Response)) (rs : List (Option Response)),
      cell ∈ fillResults rs pairs →
      cell ∈ rs ∨ ∃ pr ∈ pairs, cell = some pr.2 := by
  intro pairs
  induction pairs with
  | nil => intro rs h; exact Or.inl h
  | cons pr rest ih =>
    intro rs h
    unfold fillResults at h
    rw [List.foldl_cons] at h
    rcases ih _ h with hmem | ⟨pr2, hpr2, hcell⟩
    · rcases List.mem_or_eq_of_mem_set hmem with hmem2 | hval
      · exact Or.inl hmem2
      · exact Or.inr ⟨pr, List.mem_cons_self pr rest, hval⟩
    · exact Or.inr ⟨pr2, List.mem_cons_of_mem pr hpr2, hcell⟩

/-- Values produced by the sequential second-pass loop, on success. -/
theorem exceptMapM_ok_mem {f : String → Except String Response} :
    ∀ {ms : List String} {vals : List Response},
      exceptMapM f ms = .ok vals →
      ∀ v ∈ vals, ∃ dd ∈ ms, f dd = .ok v := by
  intro ms
  induction ms with
  | nil =>
    intro vals h v hv
    unfold exceptMapM at h
    cases h
    simp at hv
  | cons dd rest ih =>
    intro vals h v hv
    unfold exceptMapM at h
    cases hf : f dd with
    | error e => rw [hf] at h; exact Except.noConfusion h
    | ok v0 =>
      rw [hf] at h
      cases hrest : exceptMapM f rest with
      | error e => rw [hrest] at h; exact Except.noConfusion h
      | ok vs =>
        rw [hrest] at h
        cases h
        rcases List.mem_cons.mp hv with hv0 | hvs
        · exact ⟨dd, List.mem_cons_self dd rest, hv0 ▸ hf⟩
        · rcases ih hrest v hvs with ⟨dd2, hdd2, hfd⟩
          exact ⟨dd2, List.mem_cons_of_mem dd hdd2, hfd⟩

/-- Every response emitted by `predict_batch` has one of five shapes. -/
theorem predict_batch_shape (store : List (String × String)) (pOpt : Option Predictor)
    (descs : List String) (r : Response) (hr : r ∈ predict_batch store pOpt descs) :
    r = modelNotLoadedResponse ∨ r = emptyDescriptionResponse ∨
      (∃ dd cc : String, cc ≠ "" ∧ r = batchCorrectionResponse dd cc) ∨
      (∃ dd : String, ∃ pres : PredictorResult, r = batchModelResponse dd pres) ∨
      (∃ e : String, r = mkErrResponse e) := by
  unfold predict_batch at hr
  cases pOpt with
  | none =>
    exact Or.inl (List.eq_of_mem_replicate hr)
  | some p =>
    rw [List.mem_map] at hr
    obtain ⟨cell, hcell, hget⟩ := hr
    by_cases hms : (predictBatchPass1 store descs 0).2.1 = []
    · rw [if_pos hms] at hcell
      rcases pass1_cell_shape store descs 0 cell hcell with hsh | hsh | ⟨dd, cc, hne, hsh⟩
      · subst hsh; exact Or.inr (Or.inl hget.symm)
      · subst hsh; exact Or.inl hget.symm
      · subst hsh; exact Or.inr (Or.inr (Or.inl ⟨dd, cc, hne, hget.symm⟩))
    · rw [if_neg hms] at hcell
      cases hmap : exceptMapM
          (fun dd => (dbPredict p dd).map (fun pres => batchModelResponse dd pres))
          (predictBatchPass1 store descs 0).2.1 with
      | ok vals =>
        rw [hmap] at hcell
        rcases mem_fillResults _ _ hcell with hmem | ⟨pr, hpr, hcellv⟩
        · rcases pass1_cell_shape store descs 0 cell hmem with hsh | hsh | ⟨dd, cc, hne, hsh⟩
          · subst hsh; exact Or.inr (Or.inl hget.symm)
          · subst hsh; exact Or.inl hget.symm
          · subst hsh; exact Or.inr (Or.inr (Or.inl ⟨dd, cc, hne, hget.symm⟩))
        · have hv : pr.2 ∈ vals := (List.of_mem_zip hpr).2
          rcases exceptMapM_ok_mem hmap pr.2 hv with ⟨dd, _, hfd⟩
          cases hdb : dbPredict p dd with
          | error e => rw [hdb] at hfd; exact Except.noConfusion hfd
          | ok pres =>
            rw [hdb] at hfd
            simp only [Except.map] at hfd
            injection hfd with hfd2
            subst hcellv
            simp only [Option.getD_some] at hget
            exact Or.inr (Or.inr (Or.inr (Or.inl ⟨dd, pres, by rw [← hget, ← hfd2]⟩)))
      | error e =>
        rw [hmap] at hcell
        rcases mem_fillResults _ _ hcell with hmem | ⟨pr, hpr, hcellv⟩
        · rcases pass1_cell_shape store descs 0 cell hmem with hsh | hsh | ⟨dd, cc, hne, hsh⟩
          · subst hsh; exact Or.inr (Or.inl hget.symm)
          · subst hsh; exact Or.inl hget.symm
          · subst hsh; exact Or.inr (Or.inr (Or.inl ⟨dd, cc, hne, hget.symm⟩))
        · rw [List.mem_map] at hpr
          obtain ⟨i, _, hpr2⟩ := hpr
          subst hcellv
          simp only [Option.getD_some] at hget
          refine Or.inr (Or.inr (Or.inr (Or.inr ⟨e, ?_⟩)))
          rw [← hget, ← hpr2]

/-- C9: on every path, single-item or batch, a result whose source is
UserCorrection carries the confidence map (category, 1). -/
theorem c9_user_correction_confidence :
    (∀ (store : List (String × String)) (pOpt : Option Predictor) (d : String),
      (predict store pOpt d).model_type = some "User_Correction" →
      (predict store pOpt d).confidence = some [("category", 1)])
    ∧ (∀ (store : List (String × String)) (pOpt : Option Predictor)
        (descs : List String) (r : Response),
        r ∈ predict_batch store pOpt descs →
        r.model_type = some "User_Correction" →
        r.confidence = some [("category", 1)]) := by
  constructor
  · intro store pOpt d hmt
    unfold predict at hmt ⊢
    by_cases hstrip : pyStrip d = ""
    · rw [if_pos hstrip] at hmt
      exact absurd hmt (by simp [emptyDescriptionResponse])
    · rw [if_neg hstrip] at hmt ⊢
      cases hcc : get_corrected_category store d with
      | some cat =>
        rw [hcc] at hmt
        simp only [] at hmt
        by_cases hne : cat = ""
        · rw [if_pos hne] at hmt
          exact absurd hmt (predictStep2_not_user_correction pOpt d)
        · simp only [if_neg hne]
          rfl
      | none =>
        rw [hcc] at hmt
        simp only [] at hmt
        exact absurd hmt (predictStep2_not_user_correction pOpt d)
  · intro store pOpt descs r hr hmt
    rcases predict_batch_shape store pOpt descs r hr with hsh | hsh | ⟨dd, cc, _, hsh⟩
      | ⟨dd, pres, hsh⟩ | ⟨e, hsh⟩
    · subst hsh
      exact absurd hmt (by simp [modelNotLoadedResponse, mkErrResponse])
    · subst hsh
      exact absurd hmt (by simp [emptyDescriptionResponse])
    · subst hsh
      rfl
    · subst hsh
      exact absurd hmt (by simp [batchModelResponse])
    · subst hsh
      exact absurd hmt (by simp [mkErrResponse])

theorem c9_user_correction_confidence_witness :
    ((predict [("starbucks", "Dining / Cafes")] none "Starbucks").model_type
        = some "User_Correction"
      ∧ (predict [("starbucks", "Dining / Cafes")] none "Starbucks").confidence
          = some [("category", 1)])
    ∧ ((predict_batch [("starbucks", "Dining / Cafes")] (some ⟨[], fun _ =>
          .ok ⟨"N/A", "Uncategorized", "N/A", [], []⟩⟩) ["Starbucks"]).head?
          = some (batchCorrectionResponse "Starbucks" "Dining / Cafes")
      ∧ (batchCorrectionResponse "Starbucks" "Dining / Cafes").confidence
          = some [("category", 1)]) :=
  ⟨⟨by decide,
    (c9_user_correction_confidence).1 [("starbucks", "Dining / Cafes")] none "Starbucks"
      (by decide)⟩,
   ⟨by decide,
    (c9_user_correction_confidence).2 [("starbucks", "Dining / Cafes")]
      (some ⟨[], fun _ => .ok ⟨"N/A", "Uncategorized", "N/A", [], []⟩⟩) ["Starbucks"]
      (batchCorrectionResponse "Starbucks" "Dining / Cafes") (by decide) (by decide)⟩⟩

/-! ## Claims C3 and C4: single versus batch resolution -/

theorem predict_batch_singleton (store : List (String × String)) (p : Predictor) (d : String) :
    predict_batch store (some p) [d] = [batchItemResult store p d] := by
  by_cases hstrip : pyStrip d = ""
  · have h1 : predictBatchPass1 store [d] 0 = ([some emptyDescriptionResponse], [], []) := by
      simp [predictBatchPass1, hstrip]
    simp [predict_batch, h1, batchItemResult, hstrip]
  · cases hcc : get_corrected_category store d with
    | some cat =>
      by_cases hne : cat = ""
      · have h1 : predictBatchPass1 store [d] 0 = ([none], [d], [0]) := by
          simp [predictBatchPass1, hstrip, hcc, hne]
        cases hdb : dbPredict p d with
        | ok res =>
          simp [predict_batch, h1, batchItemResult, hstrip, hcc, hne, exceptMapM, hdb,
            Except.map, fillResults]
        | error e =>
          simp [predict_batch, h1, batchItemResult, hstrip, hcc, hne, exceptMapM, hdb,
            Except.map, fillResults]
      · have h1 : predictBatchPass1 store [d] 0
            = ([some (batchCorrectionResponse d cat)], [], []) := by
          simp [predictBatchPass1, hstrip, hcc, hne]
        simp [predict_batch, h1, batchItemResult, hstrip, hcc, hne]
    | none =>
      have h1 : predictBatchPass1 store [d] 0 = ([none], [d], [0]) := by
        simp [predictBatchPass1, hstrip, hcc]
      cases hdb : dbPredict p d with
      | ok res =>
        simp [predict_batch, h1, batchItemResult, hstrip, hcc, exceptMapM, hdb,
          Except.map, fillResults]
      | error e =>
        simp [predict_batch, h1, batchItemResult, hstrip, hcc, exceptMapM, hdb,
          Except.map, fillResults]

/-- C3 (counterexample): single-item and batch resolution do not produce
identical result objects.  On a correction hit the batch path hard-codes
transaction_type and intent to "N/A" while the single-item path consults
the classifier (here returning "P2C"); on a keyword hit the batch path
reports model_type "DistilBERT" and reason "ml_prediction" while the
single-item path reports "Keyword_Match" and "keyword_match". -/
theorem c3_counterexample :
    ((predict [("foo", "Dining / Cafes")] (some oracleP2C) "FOO").transaction_type
        = some "P2C"
      ∧ (predict_batch [("foo", "Dining / Cafes")] (some oracleP2C) ["FOO"]).head?
          = some (batchCorrectionResponse "FOO" "Dining / Cafes")
      ∧ (batchCorrectionResponse "FOO" "Dining / Cafes").transaction_type = some "N/A"
      ∧ predict_batch [("foo", "Dining / Cafes")] (some oracleP2C) ["FOO"]
          ≠ [predict [("foo", "Dining / Cafes")] (some oracleP2C) "FOO"])
    ∧ ((predict [] (some oracleZomato) "ZOMATO").model_type = some "Keyword_Match"
      ∧ (predict_batch [] (some oracleZomato) ["ZOMATO"]).head?.map (fun r => r.model_type)
          = some (some "DistilBERT")
      ∧ predict_batch [] (some oracleZomato) ["ZOMATO"]
          ≠ [predict [] (some oracleZomato) "ZOMATO"]) := by decide

/-- C3 (amended): with a loaded classifier, resolving a narration as a
singleton batch yields exactly one result, and that result agrees with the
single-item result on description, error, predicted_category,
predicted_subcategory and confidence.  (They can differ in
transaction_type and intent on correction hits, and in model_type and
reason on keyword hits, as the counterexample shows.) -/
theorem c3_single_batch_agreement (store : List (String × String)) (p : Predictor)
    (d : String) :
    predict_batch store (some p) [d] = [batchItemResult store p d]
      ∧ (batchItemResult store p d).description = (predict store (some p) d).description
      ∧ (batchItemResult store p d).error = (predict store (some p) d).error
      ∧ (batchItemResult store p d).predicted_category
          = (predict store (some p) d).predicted_category
      ∧ (batchItemResult store p d).predicted_subcategory
          = (predict store (some p) d).predicted_subcategory
      ∧ (batchItemResult store p d).confidence = (predict store (some p) d).confidence := by
  refine ⟨predict_batch_singleton store p d, ?_⟩
  by_cases hstrip : pyStrip d = ""
  · simp [batchItemResult, predict, hstrip]
  · cases hcc : get_corrected_category store d with
    | some cat =>
      by_cases hne : cat = ""
      · have hb : batchItemResult store p d
            = (match dbPredict p d with
               | .ok res => batchModelResponse d res
               | .error e => mkErrResponse e) := by
          simp [batchItemResult, hstrip, hcc, hne]
        have hs : predict store (some p) d = predictStep2 (some p) d := by
          simp [predict, hstrip, hcc, hne]
        rw [hb, hs]
        cases hdb : dbPredict p d with
        | ok res => simp [predictStep2, hdb, predictStep2ok, batchModelResponse]
        | error e => simp [predictStep2, hdb]
      · have hb : batchItemResult store p d = batchCorrectionResponse d cat := by
          simp [batchItemResult, hstrip, hcc, hne]
        have hs : predict store (some p) d
            = correctionResponse d (correctionTypeIntent (some p) d) cat :=
          predict_correction_hit hcc hne
        rw [hb, hs]
        simp [batchCorrectionResponse, correctionResponse]
    | none =>
      have hb : batchItemResult store p d
          = (match dbPredict p d with
             | .ok res => batchModelResponse d res
             | .error e => mkErrResponse e) := by
        simp [batchItemResult, hstrip, hcc]
      have hs : predict store (some p) d = predictStep2 (some p) d := by
        simp [predict, hstrip, hcc]
      rw [hb, hs]
      cases hdb : dbPredict p d with
      | ok res => simp [predictStep2, hdb, predictStep2ok, batchModelResponse]
      | error e => simp [predictStep2, hdb]

/-- Shifting the enumeration base of the first pass only shifts the
recorded indices. -/
theorem pass1_shift (store : List (String × String)) :
    ∀ (descs : List String) (i : Nat),
      predictBatchPass1 store descs (i + 1)
        = ((predictBatchPass1 store descs i).1, (predictBatchPass1 store descs i).2.1,
           (predictBatchPass1 store descs i).2.2.map (fun k => k + 1)) := by
  intro descs
  induction descs with
  | nil => intro i; rfl
  | cons d rest ih =>
    intro i
    show (let tail := predictBatchPass1 store rest (i + 1 + 1); _) = _
    rw [show predictBatchPass1 store (d :: rest) (i + 1)
        = (let tail := predictBatchPass1 store rest (i + 1 + 1)
           if pyStrip d = "" then (some emptyDescriptionResponse :: tail.1, tail.2.1, tail.2.2)
           else
             match get_corrected_category store d with
             | some cat =>
               if cat = "" then (none :: tail.1, d :: tail.2.1, (i + 1) :: tail.2.2)
               else (some (batchCorrectionResponse d cat) :: tail.1, tail.2.1, tail.2.2)
             | none => (none :: tail.1, d :: tail.2.1, (i + 1) :: tail.2.2)) from rfl]
    rw [show predictBatchPass1 store (d :: rest) i
        = (let tail := predictBatchPass1 store rest (i + 1)
           if pyStrip d = "" then (some emptyDescriptionResponse :: tail.1, tail.2.1, tail.2.2)
           else
             match get_corrected_category store d with
             | some cat =>
               if cat = "" then (none :: tail.1, d :: tail.2.1, i :: tail.2.2)
               else (some (batchCorrectionResponse d cat) :: tail.1, tail.2.1, tail.2.2)
             | none => (none :: tail.1, d :: tail.2.1, i :: tail.2.2)) from rfl]
    rw [ih (i + 1)]
    by_cases hstrip : pyStrip d = ""
    · simp [hstrip]
    · cases hcc : get_corrected_category store d with
      | some cat =>
        by_cases hne : cat = ""
        · simp [hstrip, hcc, hne]
        · simp [hstrip, hcc, hne]
      | none => simp [hstrip, hcc]

theorem zip_shift :
    ∀ (idxs : List Nat) (vals : List Response),
      (idxs.map (fun k => k + 1)).zip vals
        = (idxs.zip vals).map (fun pr => (pr.1 + 1, pr.2)) := by
  intro idxs
  induction idxs with
  | nil => intro vals; rfl
  | cons i rest ih =>
    intro vals
    cases vals with
    | nil => rfl
    | cons v vrest => simp [ih]

theorem fill_shift :
    ∀ (pairs : List (Nat × Response)) (x : Option Response) (rs : List (Option Response)),
      fillResults (x :: rs) (pairs.map (fun pr => (pr.1 + 1, pr.2)))
        = x :: fillResults rs pairs := by
  intro pairs
  induction pairs with
  | nil => intro x rs; rfl
  | cons pr rest ih =>
    intro x rs
    show fillResults ((x :: rs).set (pr.1 + 1) (some pr.2)) (rest.map (fun pr => (pr.1 + 1, pr.2)))
      = x :: fillResults (rs.set pr.1 (some pr.2)) rest
    rw [show (x :: rs).set (pr.1 + 1) (some pr.2) = x :: rs.set pr.1 (some pr.2) from rfl]
    exact ih x (rs.set pr.1 (some pr.2))

theorem exceptMapM_all_ok {f : String → Except String Response} :
    ∀ {ms : List String},
      (∀ d ∈ ms, ∃ v, f d = .ok v) →
      ∃ vals, exceptMapM f ms = .ok vals := by
  intro ms
  induction ms with
  | nil => intro _; exact ⟨[], rfl⟩
  | cons d rest ih =>
    intro h
    obtain ⟨v, hv⟩ := h d (List.mem_cons_self d rest)
    obtain ⟨vals0, hvals0⟩ := ih (fun x hx => h x (List.mem_cons_of_mem d hx))
    refine ⟨v :: vals0, ?_⟩
    unfold exceptMapM
    rw [hv, hvals0]

/-- The narrations pending for the model in the first pass are narrations
of the batch. -/
theorem pass1_ms_sub (store : List (String × String)) :
    ∀ (descs : List String) (i : Nat) (d : String),
      d ∈ (predictBatchPass1 store descs i).2.1 → d ∈ descs := by
  intro descs
  induction descs with
  | nil => intro i d h; simp [predictBatchPass1] at h
  | cons dd rest ih =>
    intro i d h
    unfold predictBatchPass1 at h
    by_cases hstrip : pyStrip dd = ""
    · rw [if_pos hstrip] at h
      exact List.mem_cons_of_mem dd (ih (i + 1) d h)
    · rw [if_neg hstrip] at h
      cases hcc : get_corrected_category store dd with
      | some cat =>
        rw [hcc] at h
        simp only [] at h
        by_cases hne : cat = ""
        · rw [if_pos hne] at h
          rcases List.mem_cons.mp h with hc | hc
          · exact hc ▸ List.mem_cons_self dd rest
          · exact List.mem_cons_of_mem dd (ih (i + 1) d hc)
        · rw [if_neg hne] at h
          exact List.mem_cons_of_mem dd (ih (i + 1) d h)
      | none =>
        rw [hcc] at h
        simp only [] at h
        rcases List.mem_cons.mp h with hc | hc
        · exact hc ▸ List.mem_cons_self dd rest
        · exact List.mem_cons_of_mem dd (ih (i + 1) d hc)

/-- `predict_batch` with a loaded classifier always equals the uniform
second-pass assembly (the special casing of an empty pending list in the
source is semantically redundant). -/
theorem predict_batch_eq_core (store : List (String × String)) (p : Predictor)
    (descs : List String) :
    predict_batch store (some p) descs
      = ((match exceptMapM (fun d => (dbPredict p d).map (fun r => batchModelResponse d r))
            (predictBatchPass1 store descs 0).2.1 with
          | .ok vals =>
            fillResults (predictBatchPass1 store descs 0).1
              ((predictBatchPass1 store descs 0).2.2.zip vals)
          | .error e =>
            fillResults (predictBatchPass1 store descs 0).1
              ((predictBatchPass1 store descs 0).2.2.map (fun i => (i, mkErrResponse e)))) :
          List (Option Response)).map
          (fun r => r.getD modelNotLoadedResponse) := by
  by_cases hms : (predictBatchPass1 store descs 0).2.1 = []
  · rw [hms]
    simp [predict_batch, hms, exceptMapM, fillResults, List.zip_nil_right]
  · simp [predict_batch, hms]

theorem pass1_length (store : List (String × String)) :
    ∀ (descs : List String) (i : Nat),
      (predictBatchPass1 store descs i).1.length = descs.length := by
  intro descs
  induction descs with
  | nil => intro i; rfl
  | cons dd rest ih =>
    intro i
    unfold predictBatchPass1
    by_cases hstrip : pyStrip dd = ""
    · simp [hstrip, ih]
    · cases hcc : get_corrected_category store dd with
      | some cat =>
        by_cases hne : cat = ""
        · simp [hstrip, hcc, hne, ih]
        · simp [hstrip, hcc, hne, ih]
      | none => simp [hstrip, hcc, ih]

theorem fillResults_length :
    ∀ (pairs : List (Nat × Response)) (rs : List (Option Response)),
      (fillResults rs pairs).length = rs.length := by
  intro pairs
  induction pairs with
  | nil => intro rs; rfl
  | cons pr rest ih =>
    intro rs
    show (fillResults (rs.set pr.1 (some pr.2)) rest).length = rs.length
    rw [ih, List.length_set]

theorem pass1_one (store : List (String × String)) (rest : List String) :
    predictBatchPass1 store rest 1
      = ((predictBatchPass1 store rest 0).1, (predictBatchPass1 store rest 0).2.1,
         (predictBatchPass1 store rest 0).2.2.map (fun k => k + 1)) :=
  pass1_shift store rest 0

/-- Unfolding of the first pass on a cons cell (base 0). -/
theorem pass1_cons (store : List (String × String)) (d : String) (rest : List String) :
    predictBatchPass1 store (d :: rest) 0
      = (if pyStrip d = ""
         then (some emptyDescriptionResponse :: (predictBatchPass1 store rest 1).1,
               (predictBatchPass1 store rest 1).2.1, (predictBatchPass1 store rest 1).2.2)
         else
           match get_corrected_category store d with
           | some cat =>
             if cat = ""
             then (none :: (predictBatchPass1 store rest 1).1,
                   d :: (predictBatchPass1 store rest 1).2.1,
                   0 :: (predictBatchPass1 store rest 1).2.2)
             else (some (batchCorrectionResponse d cat) :: (predictBatchPass1 store rest 1).1,
                   (predictBatchPass1 store rest 1).2.1, (predictBatchPass1 store rest 1).2.2)
           | none => (none :: (predictBatchPass1 store rest 1).1,
                      d :: (predictBatchPass1 store rest 1).2.1,
                      0 :: (predictBatchPass1 store rest 1).2.2)) := rfl

/-- C4 part (ii) as a standalone lemma: when no pending item's cascade
raises, `predict_batch` is the per-item map — so every item resolves to its
own result independently of the rest of the batch. -/
theorem predict_batch_all_ok (store : List (String × String)) (p : Predictor) :
    ∀ descs : List String,
      (∀ d ∈ descs, ∃ res, dbPredict p d = .ok res) →
      predict_batch store (some p) descs = descs.map (batchItemResult store p) := by
  intro descs
  induction descs with
  | nil => intro _; rfl
  | cons d rest ih =>
    intro hall
    obtain ⟨res, hdb⟩ := hall d (List.mem_cons_self d rest)
    have hrest := ih (fun x hx => hall x (List.mem_cons_of_mem d hx))
    have hms_ok : ∀ x ∈ (predictBatchPass1 store rest 0).2.1,
        ∃ v, ((dbPredict p x).map (fun r => batchModelResponse x r)) = .ok v := by
      intro x hx
      obtain ⟨r0, hr0⟩ := hall x (List.mem_cons_of_mem d (pass1_ms_sub store rest 0 x hx))
      exact ⟨batchModelResponse x r0, by rw [hr0]; rfl⟩
    obtain ⟨vals0, hvals0⟩ := exceptMapM_all_ok hms_ok
    have hrest_core := predict_batch_eq_core store p rest
    rw [hvals0] at hrest_core
    simp only [] at hrest_core
    rw [hrest] at hrest_core
    rw [predict_batch_eq_core store p (d :: rest), pass1_cons, pass1_one]
    by_cases hstrip : pyStrip d = ""
    · rw [if_pos hstrip]
      simp only []
      rw [hvals0]
      simp only []
      rw [zip_shift, fill_shift]
      simp only [List.map_cons, Option.getD_some]
      rw [← hrest_core]
      simp [batchItemResult, hstrip]
    · cases hcc : get_corrected_category store d with
      | some cat =>
        rw [if_neg hstrip]
        simp only []
        by_cases hne : cat = ""
        · rw [if_pos hne]
          simp only []
          have hfd : (dbPredict p d).map (fun r => batchModelResponse d r)
              = .ok (batchModelResponse d res) := by rw [hdb]; rfl
          have hstep : exceptMapM (fun dd => (dbPredict p dd).map (fun r => batchModelResponse dd r))
              (d :: (predictBatchPass1 store rest 0).2.1)
              = .ok (batchModelResponse d res :: vals0) := by
            unfold exceptMapM
            rw [hfd, hvals0]
          rw [hstep]
          simp only [List.zip_cons_cons]
          rw [show fillResults (none :: (predictBatchPass1 store rest 0).1)
              ((0, batchModelResponse d res)
                :: ((predictBatchPass1 store rest 0).2.2.map (fun k => k + 1)).zip vals0)
              = fillResults (some (batchModelResponse d res) :: (predictBatchPass1 store rest 0).1)
                (((predictBatchPass1 store rest 0).2.2.map (fun k => k + 1)).zip vals0) from rfl]
          rw [zip_shift, fill_shift]
          simp only [List.map_cons, Option.getD_some]
          rw [← hrest_core]
          simp [batchItemResult, hstrip, hcc, hne, hdb]
        · rw [if_neg hne]
          simp only []
          rw [hvals0]
          simp only []
          rw [zip_shift, fill_shift]
          simp only [List.map_cons, Option.getD_some]
          rw [← hrest_core]
          simp [batchItemResult, hstrip, hcc, hne]
      | none =>
        rw [if_neg hstrip]
        simp only []
        have hfd : (dbPredict p d).map (fun r => batchModelResponse d r)
            = .ok (batchModelResponse d res) := by rw [hdb]; rfl
        have hstep : exceptMapM (fun dd => (dbPredict p dd).map (fun r => batchModelResponse dd r))
            (d :: (predictBatchPass1 store rest 0).2.1)
            = .ok (batchModelResponse d res :: vals0) := by
          unfold exceptMapM
          rw [hfd, hvals0]
        rw [hstep]
        simp only [List.zip_cons_cons]
        rw [show fillResults (none :: (predictBatchPass1 store rest 0).1)
            ((0, batchModelResponse d res)
              :: ((predictBatchPass1 store rest 0).2.2.map (fun k => k + 1)).zip vals0)
            = fillResults (some (batchModelResponse d res) :: (predictBatchPass1 store rest 0).1)
              (((predictBatchPass1 store rest 0).2.2.map (fun k => k + 1)).zip vals0) from rfl]
        rw [zip_shift, fill_shift]
        simp only [List.map_cons, Option.getD_some]
        rw [← hrest_core]
        simp [batchItemResult, hstrip, hcc, hdb]

/-- Every recorded pending index points at a placeholder cell. -/
theorem pass1_idx_none0 (store : List (String × String)) :
    ∀ (descs : List String) (k : Nat),
      k ∈ (predictBatchPass1 store descs 0).2.2 →
      (predictBatchPass1 store descs 0).1[k]? = some none := by
  intro descs
  induction descs with
  | nil => intro k h; simp [predictBatchPass1] at h
  | cons d rest ih =>
    intro k h
    rw [pass1_cons, pass1_one] at h ⊢
    by_cases hstrip : pyStrip d = ""
    · rw [if_pos hstrip] at h ⊢
      simp only [] at h ⊢
      rw [List.mem_map] at h
      obtain ⟨k0, hk0, hk⟩ := h
      subst hk
      rw [List.getElem?_cons_succ]
      exact ih k0 hk0
    · rw [if_neg hstrip] at h ⊢
      cases hcc : get_corrected_category store d with
      | some cat =>
        simp only [hcc] at h ⊢
        by_cases hne : cat = ""
        · rw [if_pos hne] at h ⊢
          simp only [] at h ⊢
          rcases List.mem_cons.mp h with hk | hk
          · subst hk; simp
          · rw [List.mem_map] at hk
            obtain ⟨k0, hk0, hk⟩ := hk
            subst hk
            rw [List.getElem?_cons_succ]
            exact ih k0 hk0
        · rw [if_neg hne] at h ⊢
          simp only [] at h ⊢
          rw [List.mem_map] at h
          obtain ⟨k0, hk0, hk⟩ := h
          subst hk
          rw [List.getElem?_cons_succ]
          exact ih k0 hk0
      | none =>
        simp only [hcc] at h ⊢
        rcases List.mem_cons.mp h with hk | hk
        · subst hk; simp
        · rw [List.mem_map] at hk
          obtain ⟨k0, hk0, hk⟩ := hk
          subst hk
          rw [List.getElem?_cons_succ]
          exact ih k0 hk0

/-- An empty-string item of the batch has its cell stamped with the
Empty-description dictionary already in the first pass. -/
theorem pass1_empty_cell (store : List (String × String)) :
    ∀ (descs : List String) (j : Nat) (d : String),
      descs[j]? = some d → pyStrip d = "" →
      (predictBatchPass1 store descs 0).1[j]? = some (some emptyDescriptionResponse) := by
  intro descs
  induction descs with
  | nil => intro j d h _; simp at h
  | cons dd rest ih =>
    intro j d hj hstripd
    rw [pass1_cons, pass1_one]
    cases j with
    | zero =>
      rw [List.getElem?_cons_zero, Option.some_inj] at hj
      subst hj
      rw [if_pos hstripd]
      simp
    | succ j0 =>
      rw [List.getElem?_cons_succ] at hj
      by_cases hstrip : pyStrip dd = ""
      · rw [if_pos hstrip]
        simp only []
        rw [List.getElem?_cons_succ]
        exact ih j0 d hj hstripd
      · rw [if_neg hstrip]
        cases hcc : get_corrected_category store dd with
        | some cat =>
          simp only []
          by_cases hne : cat = ""
          · rw [if_pos hne]
            simp only []
            rw [List.getElem?_cons_succ]
            exact ih j0 d hj hstripd
          · rw [if_neg hne]
            simp only []
            rw [List.getElem?_cons_succ]
            exact ih j0 d hj hstripd
        | none =>
          simp only []
          rw [List.getElem?_cons_succ]
          exact ih j0 d hj hstripd

/-- Filling at indices different from `j` preserves cell `j`. -/
theorem fill_preserve_ne :
    ∀ (pairs : List (Nat × Response)) (rs : List (Option Response)) (j : Nat),
      (∀ pr ∈ pairs, pr.1 ≠ j) →
      (fillResults rs pairs)[j]? = rs[j]? := by
  intro pairs
  induction pairs with
  | nil => intro rs j _; rfl
  | cons pr rest ih =>
    intro rs j h
    show (fillResults (rs.set pr.1 (some pr.2)) rest)[j]? = rs[j]?
    rw [ih _ j (fun x hx => h x (List.mem_cons_of_mem pr hx))]
    exact List.getElem?_set_ne (h pr (List.mem_cons_self pr rest))

/-- C4 part (iii) as a standalone lemma: empty-string items are isolated
unconditionally — even when another item's cascade raises. -/
theorem predict_batch_empty_isolated (store : List (String × String)) (p : Predictor)
    (descs : List String) (j : Nat) (d : String)
    (hj : descs[j]? = some d) (hstripd : pyStrip d = "") :
    (predict_batch store (some p) descs)[j]? = some emptyDescriptionResponse := by
  rw [predict_batch_eq_core]
  have hcell := pass1_empty_cell store descs j d hj hstripd
  cases hmap : exceptMapM
      (fun dd => (dbPredict p dd).map (fun r => batchModelResponse dd r))
      (predictBatchPass1 store descs 0).2.1 with
  | ok vals =>
    simp only []
    have hne : ∀ pr ∈ (predictBatchPass1 store descs 0).2.2.zip vals, pr.1 ≠ j := by
      intro pr hpr hcon
      have h1 := pass1_idx_none0 store descs pr.1 (List.of_mem_zip hpr).1
      rw [hcon, hcell] at h1
      exact Option.noConfusion (Option.some_inj.mp h1)
    rw [List.getElem?_map, fill_preserve_ne _ _ j hne, hcell]
    rfl
  | error e =>
    simp only []
    have hne : ∀ pr ∈ (predictBatchPass1 store descs 0).2.2.map
        (fun i => (i, mkErrResponse e)), pr.1 ≠ j := by
      intro pr hpr hcon
      rw [List.mem_map] at hpr
      obtain ⟨i, hi, hpr2⟩ := hpr
      have h1 := pass1_idx_none0 store descs pr.1 (by rw [← hpr2]; exact hi)
      rw [hcon, hcell] at h1
      exact Option.noConfusion (Option.some_inj.mp h1)
    rw [List.getElem?_map, fill_preserve_ne _ _ j hne, hcell]
    rfl

/-- C4 (counterexample): one item's exception is not isolated — it replaces
the results of every model-resolved item in the batch.  Here GOOD resolves
fine on its own (its normal result is a DistilBERT response with no error),
but batched together with BAD, whose cascade raises, GOOD's slot also
receives the error dictionary. -/
theorem c4_counterexample :
    predict_batch [] (some oracleBoom) ["GOOD", "BAD"]
        = [mkErrResponse "boom", mkErrResponse "boom"]
      ∧ (batchItemResult [] oracleBoom "GOOD").model_type = some "DistilBERT"
      ∧ (batchItemResult [] oracleBoom "GOOD").error = none
      ∧ (predict_batch [] (some oracleBoom) ["GOOD", "BAD"])[0]?
          ≠ some (batchItemResult [] oracleBoom "GOOD")
      ∧ (predict [] (some oracleBoom) "GOOD").error = none := by decide

/-- C4 (amended): the output always has the same length and order as the
input; when no item's cascade raises, the batch is exactly the per-item map
(every item, empty, correction-resolved or model-resolved, gets its own
result); and empty-string items are isolated unconditionally.  Exception
isolation as claimed fails: see the counterexample. -/
theorem c4_batch_isolation :
    (∀ (store : List (String × String)) (pOpt : Option Predictor) (descs : List String),
      (predict_batch store pOpt descs).length = descs.length)
    ∧ (∀ (store : List (String × String)) (p : Predictor) (descs : List String),
        (∀ d ∈ descs, ∃ res, dbPredict p d = .ok res) →
        predict_batch store (some p) descs = descs.map (batchItemResult store p))
    ∧ (∀ (store : List (String × String)) (p : Predictor) (descs : List String)
        (j : Nat) (d : String),
        descs[j]? = some d → pyStrip d = "" →
        (predict_batch store (some p) descs)[j]? = some emptyDescriptionResponse) := by
  refine ⟨?_, predict_batch_all_ok, predict_batch_empty_isolated⟩
  intro store pOpt descs
  cases pOpt with
  | none => simp [predict_batch]
  | some p =>
    rw [predict_batch_eq_core]
    cases hmap : exceptMapM
        (fun dd => (dbPredict p dd).map (fun r => batchModelResponse dd r))
        (predictBatchPass1 store descs 0).2.1 with
    | ok vals =>
      simp only [List.length_map]
      rw [fillResults_length, pass1_length]
    | error e =>
      simp only [List.length_map]
      rw [fillResults_length, pass1_length]

theorem c4_batch_isolation_witness :
    (∀ d ∈ (["", "FOO"] : List String), ∃ res, dbPredict oracleP2C d = .ok res)
      ∧ predict_batch [("foo", "Dining / Cafes")] (some oracleP2C) ["", "FOO"]
          = (["", "FOO"] : List String).map
              (batchItemResult [("foo", "Dining / Cafes")] oracleP2C)
      ∧ (predict_batch [("foo", "Dining / Cafes")] (some oracleP2C) ["", "FOO"]).length = 2
      ∧ (predict_batch [("foo", "Dining / Cafes")] (some oracleP2C) ["", "FOO"])[0]?
          = some emptyDescriptionResponse := by
  have hall : ∀ d ∈ (["", "FOO"] : List String), ∃ res, dbPredict oracleP2C d = .ok res := by
    intro d hd
    rcases List.mem_cons.mp hd with h1 | h2
    · subst h1
      exact ⟨naPredictorResult, rfl⟩
    · rcases List.mem_cons.mp h2 with h1 | h3
      · subst h1
        exact ⟨⟨"P2C", "Shopping / Online", "purchase", [("category", 1)], [],
          some false, none⟩, rfl⟩
      · simp at h3
  refine ⟨hall, c4_batch_isolation.2.1 _ oracleP2C _ hall,
    c4_batch_isolation.1 _ (some oracleP2C) _, ?_⟩
  exact c4_batch_isolation.2.2 _ oracleP2C _ 0 "" (by decide) (by decide)

/-! ## C6: the normalizer is not idempotent, but guarded strings are fixed
points of the non-P2P pass -/

theorem suffixHas_false_iff (q : List Char → Bool) :
    ∀ s : List Char, suffixHas q s = false ↔ ∀ t, t <:+ s → q t = false := by
  intro s
  induction s with
  | nil =>
    constructor
    · intro h t ht
      rw [List.suffix_nil.mp ht]
      exact h
    · intro h
      exact h [] (List.suffix_refl [])
  | cons c rest ih =>
    rw [show suffixHas q (c :: rest) = (q (c :: rest) || suffixHas q rest) from rfl,
      Bool.or_eq_false_iff, ih]
    constructor
    · rintro ⟨h1, h2⟩ t ht
      rcases List.suffix_cons_iff.mp ht with h | h
      · rw [h]; exact h1
      · exact h2 t h
    · intro h
      exact ⟨h _ (List.suffix_refl _),
        fun t ht => h t (ht.trans (List.suffix_cons c rest))⟩

theorem containsCi_false (needle : List Char) :
    ∀ s : List Char, containsCi needle s = false →
      ∀ t, t <:+ s → ciStarts needle t = false := by
  intro s
  induction s with
  | nil =>
    intro h t ht
    rw [List.suffix_nil.mp ht]
    exact h
  | cons c rest ih =>
    intro h t ht
    rw [show containsCi needle (c :: rest)
        = (ciStarts needle (c :: rest) || containsCi needle rest) from rfl,
      Bool.or_eq_false_iff] at h
    rcases List.suffix_cons_iff.mp ht with h1 | h1
    · rw [h1]; exact h.1
    · exact ih h.2 t h1

theorem ciStarts_append (e : List Char) :
    ∀ (w s : List Char), ciStarts (w ++ e) s = true → ciStarts w s = true := by
  intro w
  induction w with
  | nil => intro s _; rfl
  | cons p pr ih =>
    intro s h
    cases s with
    | nil => simp [ciStarts] at h
    | cons c cr =>
      simp only [List.cons_append, ciStarts, Bool.and_eq_true] at h ⊢
      exact ⟨h.1, ih cr h.2⟩

/-- Generic identity lemma for the substitution scanner: if at every suffix
the matcher either fails, matches zero characters, or matches a span equal
to the replacement, the scan returns its input. -/
theorem scanRepl_id (m : Option Char → List Char → Option Nat) (repl : List Char) :
    ∀ (fuel : Nat) (prev : Option Char) (s : List Char),
      (∀ t pr n, t <:+ s → m pr t = some n → n = 0 ∨ repl = t.take n) →
      scanRepl m repl fuel prev s = s := by
  intro fuel
  induction fuel with
  | zero => intro prev s _; rfl
  | succ f ih =>
    intro prev s H
    cases s with
    | nil => rfl
    | cons c rest =>
      have Hrest : ∀ t pr n, t <:+ rest → m pr t = some n → n = 0 ∨ repl = t.take n :=
        fun t pr n ht hn => H t pr n (ht.trans (List.suffix_cons c rest)) hn
      rw [show scanRepl m repl (f + 1) prev (c :: rest)
          = (match m prev (c :: rest) with
             | some n =>
               if n = 0 then c :: scanRepl m repl f (some c) rest
               else repl ++ scanRepl m repl f (((c :: rest).take n).getLast?)
                 (List.drop n (c :: rest))
             | none => c :: scanRepl m repl f (some c) rest) from rfl]
      cases hm : m prev (c :: rest) with
      | none =>
        simp only []
        rw [ih (some c) rest Hrest]
      | some n =>
        simp only []
        by_cases h0 : n = 0
        · rw [if_pos h0, ih (some c) rest Hrest]
        · rw [if_neg h0]
          rcases H (c :: rest) prev n (List.suffix_refl _) hm with h0' | hr
          · exact absurd h0' h0
          · rw [ih _ (List.drop n (c :: rest))
              (fun t pr n' ht hn =>
                H t pr n' (ht.trans (List.drop_suffix n (c :: rest))) hn)]
            rw [hr]
            exact List.take_append_drop n (c :: rest)

theorem runSub_id (m : Option Char → List Char → Option Nat) (repl : List Char)
    (s : List Char)
    (H : ∀ t pr n, t <:+ s → m pr t = some n → n = 0 ∨ repl = t.take n) :
    runSub m repl s = s :=
  scanRepl_id m repl s.length none s H

theorem runLen_cons (p : Char → Bool) (c : Char) (rest : List Char) :
    runLen p (c :: rest) = if p c then runLen p rest + 1 else 0 := by
  by_cases hc : p c = true
  · simp [runLen, List.takeWhile_cons, hc]
  · simp [runLen, List.takeWhile_cons, hc]

theorem mDashDigits_none (pr : Option Char) (t : List Char)
    (h : ∀ c ∈ t, isSepDash c = false) : mDashDigits pr t = none := by
  cases t with
  | nil => rfl
  | cons c rest => simp [mDashDigits, h c (List.mem_cons_self c rest)]

theorem mSepsRun_none (pr : Option Char) (t : List Char)
    (h : ∀ c ∈ t, isSepDash c = false) : mSepsRun pr t = none := by
  cases t with
  | nil => rfl
  | cons c rest =>
    simp [mSepsRun, runLen_cons, h c (List.mem_cons_self c rest)]

theorem mDashPaytmQr_none (pr : Option Char) (t : List Char)
    (h : ∀ c ∈ t, isSepDash c = false) : mDashPaytmQr pr t = none := by
  cases t with
  | nil => rfl
  | cons c rest => simp [mDashPaytmQr, h c (List.mem_cons_self c rest)]

theorem mDashUpperDigits_none (pr : Option Char) (t : List Char)
    (h : ∀ c ∈ t, isSepDash c = false) : mDashUpperDigits pr t = none := by
  cases t with
  | nil => rfl
  | cons c rest => simp [mDashUpperDigits, h c (List.mem_cons_self c rest)]

theorem mDashLongCode_none (pr : Option Char) (t : List Char)
    (h : ∀ c ∈ t, isSepDash c = false) : mDashLongCode pr t = none := by
  cases t with
  | nil => rfl
  | cons c rest => simp [mDashLongCode, h c (List.mem_cons_self c rest)]

theorem mDashZeroCode_none (pr : Option Char) (t : List Char)
    (h : ∀ c ∈ t, isSepDash c = false) : mDashZeroCode pr t = none := by
  cases t with
  | nil => rfl
  | cons c rest => simp [mDashZeroCode, h c (List.mem_cons_self c rest)]

theorem mSpaceDigits_none (pr : Option Char) (t : List Char)
    (h : ∀ u, u <:+ t → runLen isDigitChar u < 9) : mSpaceDigits pr t = none := by
  simp only [mSpaceDigits]
  split
  · rw [if_neg]
    exact Nat.not_le.mpr (h _ (List.drop_suffix _ _))
  · rfl

theorem mAlphaDotDigits_none (pr : Option Char) (t : List Char)
    (h : ∀ u, u <:+ t → runLen isDigitChar u < 9) : mAlphaDotDigits pr t = none := by
  simp only [mAlphaDotDigits]
  split
  · split
    · rename_i rest heq
      rw [if_neg]
      intro hge
      have hsuf : rest <:+ t := by
        have h1 : rest <:+ '.' :: rest := List.suffix_cons '.' rest
        rw [← heq] at h1
        exact h1.trans (List.drop_suffix _ _)
      have := h rest hsuf
      omega
    · rfl
  · rfl

theorem mPaytmDot_none (pr : Option Char) (t : List Char)
    (h : ciStarts (lit "paytm") t = false) : mPaytmDot pr t = none := by
  have hc : ciStarts (lit "paytm.") t = false := by
    cases hq : ciStarts (lit "paytm.") t
    · rfl
    · have := ciStarts_append (lit ".") (lit "paytm") t
        (by rw [show lit "paytm" ++ lit "." = lit "paytm." from rfl]; exact hq)
      rw [h] at this
      exact Bool.noConfusion this
  simp [mPaytmDot, hc]

theorem mPaytmQrWord_none (pr : Option Char) (t : List Char)
    (h : ciStarts (lit "paytm") t = false) : mPaytmQrWord pr t = none := by
  have hc : ciStarts (lit "paytmqr") t = false := by
    cases hq : ciStarts (lit "paytmqr") t
    · rfl
    · have := ciStarts_append (lit "qr") (lit "paytm") t
        (by rw [show lit "paytm" ++ lit "qr" = lit "paytmqr" from rfl]; exact hq)
      rw [h] at this
      exact Bool.noConfusion this
  simp [mPaytmQrWord, hc]

theorem mWordSpWord_none (w1 w2 : List Char) (pr : Option Char) (t : List Char)
    (h : ciStarts w1 t = false) : mWordSpWord w1 w2 pr t = none := by
  simp [mWordSpWord, h]

theorem mWordB_none (w : List Char) (pr : Option Char) (t : List Char)
    (h : ciStarts w t = false) : mWordB w pr t = none := by
  simp [mWordB, h]

theorem mGroc_none (pr : Option Char) (t : List Char)
    (h : ciStarts (lit "groc") t = false) : mGroc pr t = none := by
  simp [mGroc, h]

theorem mLtd_none (pr : Option Char) (t : List Char)
    (h : ∀ u, u <:+ t → ciStarts (lit "ltd") u = false) : mLtd pr t = none := by
  have h0 := h t (List.suffix_refl t)
  have hb : ∀ ws, ciStarts (lit "ltd") (List.drop (4 + ws) t) = false :=
    fun ws => h _ (List.drop_suffix _ _)
  simp [mLtd, h0, hb]

/-- Under the whitespace discipline of the guard, the collapse pass
matches only single plain spaces, so each replacement equals its span. -/
theorem mWs_take (pr : Option Char) (t : List Char) (n : Nat)
    (h : ∀ u, u <:+ t → wsDefect u = false)
    (hm : mWs pr t = some n) : lit " " = List.take n t := by
  simp only [mWs] at hm
  by_cases hr : runLen isPySpace t ≥ 1
  · rw [if_pos hr] at hm
    have hn := Option.some_inj.mp hm
    cases t with
    | nil => simp [runLen] at hr
    | cons c rest =>
      have hd := h (c :: rest) (List.suffix_refl _)
      by_cases hc : isPySpace c = true
      · have hC : c = ' ' ∧ runLen isPySpace rest = 0 := by
          cases rest with
          | nil =>
            refine ⟨?_, rfl⟩
            have h2 : (!(c == ' ') || false) = false := by
              simpa [wsDefect, hc] using hd
            have h3 : (c == ' ') = true := by
              rcases Bool.or_eq_false_iff.mp h2 with ⟨hh, _⟩
              simpa using hh
            exact eq_of_beq h3
          | cons d rest2 =>
            have h2 : (!(c == ' ') || isPySpace d) = false := by
              simpa [wsDefect, hc] using hd
            rcases Bool.or_eq_false_iff.mp h2 with ⟨hc2, hd2⟩
            refine ⟨eq_of_beq (by simpa using hc2), ?_⟩
            rw [runLen_cons, if_neg (by simp [hd2])]
        have hn1 : n = 1 := by
          rw [runLen_cons, if_pos hc, hC.2] at hn
          omega
        subst hn1
        rw [hC.1]
        rfl
      · rw [runLen_cons, if_neg hc] at hr
        omega
  · rw [if_neg hr] at hm
    exact Option.noConfusion hm

theorem removeNoise_id (ws : List (List Char)) (y : List Char)
    (h : ∀ w ∈ ws, ∀ t, t <:+ y → ciStarts w t = false) :
    removeNoise ws y = y := by
  induction ws with
  | nil => rfl
  | cons w rest ih =>
    have h1 : runSub (mWordB w) [] y = y :=
      runSub_id _ _ _ (fun t pr n ht hm => by
        rw [mWordB_none w pr t (h w (List.mem_cons_self w rest) t ht)] at hm
        exact Option.noConfusion hm)
    rw [show removeNoise (w :: rest) y = removeNoise rest (runSub (mWordB w) [] y)
        from rfl, h1]
    exact ih (fun w' hw' => h w' (List.mem_cons_of_mem w hw'))

theorem dropWhile_head_id (p : Char → Bool) (s : List Char)
    (h : ∀ c, s.head? = some c → p c = false) : s.dropWhile p = s := by
  cases s with
  | nil => rfl
  | cons c rest =>
    rw [List.dropWhile_cons, if_neg]
    simp [h c rfl]

theorem pyDropEnd_last_id (p : Char → Bool) (s : List Char)
    (h : ∀ c, s.getLast? = some c → p c = false) : pyDropEnd p s = s := by
  unfold pyDropEnd
  rw [dropWhile_head_id]
  · exact List.reverse_reverse s
  · intro c hc
    exact h c (by rwa [List.head?_reverse] at hc)

theorem strip_edges_id (p : Char → Bool) (s : List Char)
    (hh : ∀ c, s.head? = some c → p c = false)
    (hl : ∀ c, s.getLast? = some c → p c = false) :
    pyDropEnd p (s.dropWhile p) = s := by
  rw [dropWhile_head_id p s hh, pyDropEnd_last_id p s hl]

theorem hasUpiPrefix_false (y : List Char)
    (h : ∀ c ∈ y, isSepDash c = false) : hasUpiPrefix y = false := by
  rcases y with _ | ⟨u, _ | ⟨p, _ | ⟨i, _ | ⟨d, rest⟩⟩⟩⟩
  · rfl
  · rfl
  · rfl
  · rfl
  · have hd : isSepDash d = false := h d (by simp)
    simp only [isSepDash] at hd
    simp [hasUpiPrefix, hd]

theorem contains_at_false (y : List Char) (h : ∀ c ∈ y, (c == '@') = false) :
    y.contains '@' = false := by
  induction y with
  | nil => rfl
  | cons c rest ih =>
    have h1 : ('@' == c) = false := by
      have := h c (List.mem_cons_self c rest)
      cases hq : ('@' == c)
      · rfl
      · rw [eq_of_beq hq] at this
        simp at this
    rw [List.contains_cons, h1, Bool.false_or]
    exact ih (fun d hd => h d (List.mem_cons_of_mem c hd))

theorem atStep_id (b : Bool) (y : List Char)
    (h : ∀ c ∈ y, (c == '@') = false) : atStep b y = y := by
  unfold atStep
  rw [if_neg]
  rw [contains_at_false y h]
  exact Bool.false_ne_true

/-- Every string satisfying the guard is a fixed point of the normalizer in
non-P2P mode. -/
theorem c6_fixed_point (y : List Char) (h : c6Fixed y = true) :
    preprocessL false y = y := by
  by_cases hy : y = []
  · subst hy; rfl
  simp only [c6Fixed, Bool.and_eq_true] at h
  obtain ⟨⟨⟨⟨⟨hchar, hdig⟩, hws⟩, hanch⟩, hhead⟩, hlast⟩ := h
  have n2f : ∀ b : Bool, (!b) = true → b = false := by decide
  have hsep : ∀ c ∈ y, isSepDash c = false := by
    intro c hc
    have hp := List.all_eq_true.mp hchar c hc
    rw [Bool.and_eq_true] at hp
    exact n2f _ hp.1
  have hat : ∀ c ∈ y, (c == '@') = false := by
    intro c hc
    have hp := List.all_eq_true.mp hchar c hc
    rw [Bool.and_eq_true] at hp
    exact n2f _ hp.2
  have hd9 : ∀ u, u <:+ y → runLen isDigitChar u < 9 := by
    intro u hu
    have hq := (suffixHas_false_iff _ y).mp (n2f _ hdig) u hu
    exact Nat.not_le.mp (of_decide_eq_false hq)
  have hwsd : ∀ u, u <:+ y → wsDefect u = false :=
    (suffixHas_false_iff _ y).mp (n2f _ hws)
  simp only [c6Anchors, List.all_cons, List.all_nil, Bool.and_eq_true,
    Bool.and_true] at hanch
  obtain ⟨a1, a2, a3, a4, a5, a6, a7, a8, a9, a10, a11, a12, a13, a14⟩ := hanch
  have hpaytmS := containsCi_false _ y (n2f _ a1)
  have hACH := containsCi_false _ y (n2f _ a2)
  have hCHQ := containsCi_false _ y (n2f _ a3)
  have hCHEQUE := containsCi_false _ y (n2f _ a4)
  have hTRANSFER := containsCi_false _ y (n2f _ a5)
  have hltd := containsCi_false _ y (n2f _ a6)
  have hgroc := containsCi_false _ y (n2f _ a7)
  have hfoods := containsCi_false _ y (n2f _ a8)
  have hN1 := containsCi_false _ y (n2f _ a9)
  have hN2 := containsCi_false _ y (n2f _ a10)
  have hN3 := containsCi_false _ y (n2f _ a11)
  have hN4 := containsCi_false _ y (n2f _ a12)
  have hN5 := containsCi_false _ y (n2f _ a13)
  have hTXN := containsCi_false _ y (n2f _ a14)
  have hgrocW : ∀ (e : List Char) (w : List Char), w = lit "groc" ++ e →
      ∀ t, t <:+ y → ciStarts w t = false := by
    intro e w hw t ht
    subst hw
    cases hq : ciStarts (lit "groc" ++ e) t
    · rfl
    · have hq2 := ciStarts_append e (lit "groc") t hq
      rw [hgroc t ht] at hq2
      exact Bool.noConfusion hq2
  have hTXNID : ∀ t, t <:+ y → ciStarts (lit "TXNID") t = false := by
    intro t ht
    cases hq : ciStarts (lit "TXNID") t
    · rfl
    · have hq2 := ciStarts_append (lit "ID") (lit "TXN") t
        (by rw [show lit "TXN" ++ lit "ID" = lit "TXNID" from rfl]; exact hq)
      rw [hTXN t ht] at hq2
      exact Bool.noConfusion hq2
  have hheadP : ∀ c, y.head? = some c → isPySpace c = false := by
    intro c hc
    cases y with
    | nil => exact Option.noConfusion hc
    | cons d rest =>
      have hd : d = c := by injection hc
      subst hd
      exact n2f _ hhead
  have hlastP : ∀ c, y.getLast? = some c → isPySpace c = false := by
    intro c hc
    rw [hc] at hlast
    exact n2f _ hlast
  have hstripOf : ∀ c, isPySpace c = false → isSepDash c = false →
      isStripSetChar c = false := by
    intro c h1 h2
    simp only [isPySpace, Bool.or_eq_false_iff] at h1
    simp only [isSepDash, Bool.or_eq_false_iff] at h2
    simp only [isStripSetChar, Bool.or_eq_false_iff]
    exact ⟨⟨h1.1.1.1.1.1, h2.1⟩, h2.2⟩
  have hheadS : ∀ c, y.head? = some c → isStripSetChar c = false := by
    intro c hc
    have hm : c ∈ y := by
      cases y with
      | nil => exact Option.noConfusion hc
      | cons d rest =>
        have hd : d = c := by injection hc
        subst hd
        exact List.mem_cons_self _ _
    exact hstripOf c (hheadP c hc) (hsep c hm)
  have hlastS : ∀ c, y.getLast? = some c → isStripSetChar c = false := by
    intro c hc
    have hm : c ∈ y := by
      obtain ⟨hne, hEq⟩ := List.mem_getLast?_eq_getLast (show c ∈ y.getLast? from hc)
      rw [hEq]
      exact List.getLast_mem hne
    exact hstripOf c (hlastP c hc) (hsep c hm)
  have e0 : pyStripL y = y := strip_edges_id isPySpace y hheadP hlastP
  have eStrip : stripSetL y = y := strip_edges_id isStripSetChar y hheadS hlastS
  have e1 : hasUpiPrefix y = false := hasUpiPrefix_false y hsep
  have e2 : atStep false y = y := atStep_id false y hat
  have idOf : ∀ (m : Option Char → List Char → Option Nat) (repl : List Char),
      (∀ t pr, t <:+ y → m pr t = none) → runSub m repl y = y := by
    intro m repl hnone
    exact runSub_id m repl y (fun t pr n ht hm => by
      rw [hnone t pr ht] at hm
      exact Option.noConfusion hm)
  have eA : runSub mDashDigits [] y = y :=
    idOf _ _ (fun t pr ht => mDashDigits_none pr t (fun c hc => hsep c (ht.subset hc)))
  have eB : runSub mSpaceDigits [] y = y :=
    idOf _ _ (fun t pr ht => mSpaceDigits_none pr t (fun u hu => hd9 u (hu.trans ht)))
  have eC : runSub mAlphaDotDigits [] y = y :=
    idOf _ _ (fun t pr ht => mAlphaDotDigits_none pr t (fun u hu => hd9 u (hu.trans ht)))
  have eD : runSub mPaytmDot [] y = y :=
    idOf _ _ (fun t pr ht => mPaytmDot_none pr t (hpaytmS t ht))
  have eE : runSub mDashPaytmQr [] y = y :=
    idOf _ _ (fun t pr ht => mDashPaytmQr_none pr t (fun c hc => hsep c (ht.subset hc)))
  have eF : runSub mPaytmQrWord [] y = y :=
    idOf _ _ (fun t pr ht => mPaytmQrWord_none pr t (hpaytmS t ht))
  have eG : runSub mDashUpperDigits [] y = y :=
    idOf _ _ (fun t pr ht => mDashUpperDigits_none pr t (fun c hc => hsep c (ht.subset hc)))
  have eH : runSub mDashLongCode [] y = y :=
    idOf _ _ (fun t pr ht => mDashLongCode_none pr t (fun c hc => hsep c (ht.subset hc)))
  have eI : runSub mDashZeroCode [] y = y :=
    idOf _ _ (fun t pr ht => mDashZeroCode_none pr t (fun c hc => hsep c (ht.subset hc)))
  have eJ : runSub (mWordSpWord (lit "ACH") (lit "D")) (lit "ACH DEBIT") y = y :=
    idOf _ _ (fun t pr ht => mWordSpWord_none _ _ pr t (hACH t ht))
  have eK : runSub (mWordSpWord (lit "CHQ") (lit "PAID")) (lit "CHEQUE PAYMENT") y = y :=
    idOf _ _ (fun t pr ht => mWordSpWord_none _ _ pr t (hCHQ t ht))
  have eL : runSub (mWordSpWord (lit "CHEQUE") (lit "PAID")) (lit "CHEQUE PAYMENT") y = y :=
    idOf _ _ (fun t pr ht => mWordSpWord_none _ _ pr t (hCHEQUE t ht))
  have eM : runSub (mWordSpWord (lit "TRANSFER") (lit "IN")) (lit "BANK TRANSFER") y = y :=
    idOf _ _ (fun t pr ht => mWordSpWord_none _ _ pr t (hTRANSFER t ht))
  have eN : runSub (mWordSpWord (lit "TRANSFER") (lit "OUT")) (lit "BANK TRANSFER") y = y :=
    idOf _ _ (fun t pr ht => mWordSpWord_none _ _ pr t (hTRANSFER t ht))
  have eO : runSub mLtd [] y = y :=
    idOf _ _ (fun t pr ht => mLtd_none pr t (fun u hu => hltd u (hu.trans ht)))
  have eP : runSub (mWordB (lit "grocies")) (lit "grocery") y = y :=
    idOf _ _ (fun t pr ht => mWordB_none _ pr t (hgrocW (lit "ies") _ rfl t ht))
  have eQ : runSub mGroc (lit "grocery") y = y :=
    idOf _ _ (fun t pr ht => mGroc_none pr t (hgroc t ht))
  have eR : runSub (mWordB (lit "grocerie")) (lit "grocery") y = y :=
    idOf _ _ (fun t pr ht => mWordB_none _ pr t (hgrocW (lit "erie") _ rfl t ht))
  have eS : runSub (mWordB (lit "grocerys")) (lit "grocery") y = y :=
    idOf _ _ (fun t pr ht => mWordB_none _ pr t (hgrocW (lit "erys") _ rfl t ht))
  have eT : runSub (mWordB (lit "foods")) (lit "food") y = y :=
    idOf _ _ (fun t pr ht => mWordB_none _ pr t (hfoods t ht))
  have eU : runSub mSepsRun (lit " ") y = y :=
    idOf _ _ (fun t pr ht => mSepsRun_none pr t (fun c hc => hsep c (ht.subset hc)))
  have eV : removeNoise defaultNoiseWords y = y := by
    apply removeNoise_id
    intro w hw t ht
    simp only [defaultNoiseWords, List.map_cons, List.map_nil, List.mem_cons,
      List.not_mem_nil, or_false] at hw
    rcases hw with hwe | hwe | hwe | hwe | hwe | hwe | hwe
    · subst hwe; exact hN1 t ht
    · subst hwe; exact hN2 t ht
    · subst hwe; exact hN3 t ht
    · subst hwe; exact hN4 t ht
    · subst hwe; exact hN5 t ht
    · subst hwe; exact hTXN t ht
    · subst hwe; exact hTXNID t ht
  have eW : runSub mWs (lit " ") y = y :=
    runSub_id _ _ _ (fun t pr n ht hm =>
      Or.inr (mWs_take pr t n (fun u hu => hwsd u (hu.trans ht)) hm))
  simp [preprocessL, e0, hy, e1, e2, eA, eB, eC, eD, eE, eF, eG, eH, eI, eJ,
    eK, eL, eM, eN, eO, eP, eQ, eR, eS, eT, eU, eV, eW, eStrip]

/-- C6 (counterexample): the normalizer is not idempotent in non-P2P mode.
The narration A at B at C (with at-signs) is not classified as P2P; one
pass removes only the first bank tag, a second pass removes another.
PAYMENT TXN FOR is not P2P either; removing the noise word TXN creates the
new noise phrase PAYMENT FOR, which only the second pass removes. -/
theorem c6_counterexample :
    (is_likely_p2p "A@B@C" = false
      ∧ preprocess_upi_narration "A@B@C" false = "A@C"
      ∧ preprocess_upi_narration (preprocess_upi_narration "A@B@C" false) false = "A"
      ∧ preprocess_upi_narration (preprocess_upi_narration "A@B@C" false) false
          ≠ preprocess_upi_narration "A@B@C" false)
    ∧ (is_likely_p2p "PAYMENT TXN FOR" = false
      ∧ preprocess_upi_narration "PAYMENT TXN FOR" false = "PAYMENT FOR"
      ∧ preprocess_upi_narration
          (preprocess_upi_narration "PAYMENT TXN FOR" false) false = ""
      ∧ preprocess_upi_narration
            (preprocess_upi_narration "PAYMENT TXN FOR" false) false
          ≠ preprocess_upi_narration "PAYMENT TXN FOR" false) := by decide

/-- C6 (amended): idempotence of the normalizer in non-P2P mode fails in
general, but holds whenever the first pass lands in the guarded fragment:
if the normalized string has no separator or at-sign characters, no run of
nine or more digits, only single plain spaces as whitespace, none at either
end, and no occurrence of a rewrite-anchor substring (paytm, ACH, CHQ,
CHEQUE, TRANSFER, ltd, groc, foods, or a noise phrase), then a second pass
returns it unchanged. -/
theorem c6_guarded_idempotence (x : String)
    (h : c6Fixed (preprocessL false x.data) = true) :
    preprocess_upi_narration (preprocess_upi_narration x false) false
      = preprocess_upi_narration x false := by
  show (⟨preprocessL false (preprocessL false x.data)⟩ : String)
      = ⟨preprocessL false x.data⟩
  rw [c6_fixed_point _ h]

theorem c6_guarded_idempotence_witness :
    c6Fixed (preprocessL false ("UPI-STARBUCKS-123456789@paytm").data) = true
      ∧ preprocess_upi_narration
          (preprocess_upi_narration "UPI-STARBUCKS-123456789@paytm" false) false
        = preprocess_upi_narration "UPI-STARBUCKS-123456789@paytm" false :=
  ⟨by decide, c6_guarded_idempotence "UPI-STARBUCKS-123456789@paytm" (by decide)⟩
